import Mathlib

/-!
Shallow embedding of the FSM-core data model and operations of the
colm repository (src/src/fsmgraph.h, src/src/input.c), together with
theorems settling the specification claims about them.

Key values are modelled as `Int` (the key algebra supplies a total order
with distance-1 increment/decrement); heap pointers to transitions are
modelled as identifiers of type `Nat`.
-/

namespace Colm

/-! ## Action (src/src/fsmgraph.h, struct Action)

Only the fields relevant to reference counting are carried. -/

/-- Reference counters of an `Action` (fsmgraph.h lines 180-185). -/
structure Action where
  numTransRefs : Int
  numToStateRefs : Int
  numFromStateRefs : Int
  numEofRefs : Int
  numCondRefs : Int
  numNfaRefs : Int
deriving DecidableEq, Repr

/-- Number of references in the final machine (fsmgraph.h lines 173-178).
The source sums `numTransRefs + numToStateRefs + numFromStateRefs +
numEofRefs + numNfaRefs`; `numCondRefs` is not part of the sum. -/
def Action.numRefs (a : Action) : Int :=
  a.numTransRefs + a.numToStateRefs + a.numFromStateRefs + a.numEofRefs + a.numNfaRefs

/-- A concrete action whose only nonzero counter is `numCondRefs`. -/
def actionOnlyCondRef : Action :=
  { numTransRefs := 0, numToStateRefs := 0, numFromStateRefs := 0,
    numEofRefs := 0, numCondRefs := 1, numNfaRefs := 0 }

/-! ## CondSpace (src/src/fsmgraph.h, struct CondSpace) -/

/-- An interned set of guard actions; `condSet` holds the guards' `condId`s in
ascending `condId` order (`CondSet` is a `BstSet` ordered by `CmpCondId`). -/
structure CondSpace where
  condSet : List Int
  condSpaceId : Int
deriving DecidableEq, Repr

/-- Full size of a condition space (fsmgraph.h lines 785-786):
`1 << condSet.length()`. -/
def CondSpace.fullSize (cs : CondSpace) : Nat :=
  1 <<< cs.condSet.length

/-! ## TransAp tagged union (src/src/fsmgraph.h lines 551-609)

A transition is plain when `condSpace == 0`; `tdap` and `tcap` cast the
transition to its data or conditional form, returning null otherwise. -/

/-- Transition with its key range and optional condition space
(fsmgraph.h, struct TransAp). -/
structure TransAp where
  lowKey : Int
  highKey : Int
  condSpace : Option CondSpace
deriving DecidableEq, Repr

/-- A transition is plain iff it has no condition space
(fsmgraph.h lines 551-552: `return condSpace == 0`). -/
def TransAp.plain (t : TransAp) : Bool :=
  t.condSpace = none

/-- Conditional cast (fsmgraph.h lines 605-606):
`condSpace != 0 ? this : 0`. -/
def TransAp.tcap (t : TransAp) : Option TransAp :=
  if t.condSpace = none then none else some t

/-- Plain-data cast (fsmgraph.h lines 608-609):
`condSpace == 0 ? this : 0`. -/
def TransAp.tdap (t : TransAp) : Option TransAp :=
  if t.condSpace = none then some t else none

/-! ## Fault kinds (src/src/fsmgraph.h lines 64-93)

The five domain-specific exception types raised by the core, with exactly
the fields the source declares. -/

/-- Raised when the state count exceeds the configured limit
(fsmgraph.h line 64: `struct TooManyStates {}` — it has no fields). -/
structure TooManyStates where
deriving DecidableEq, Repr

/-- Raised on a priority collision (fsmgraph.h lines 66-70); carries the
colliding key as its `id` field. -/
structure PriorInteraction where
  id : Int
deriving DecidableEq, Repr

/-- Raised on a bad repetition bound (fsmgraph.h line 72:
`struct RepetitionError {}` — it has no fields). -/
structure RepetitionError where
deriving DecidableEq, Repr

/-- Raised when a range is too dense to materialize (fsmgraph.h line 73:
`struct TransDensity {}` — it has no fields). -/
structure TransDensity where
deriving DecidableEq, Repr

/-- Raised when condition-space expansion exceeds the budget
(fsmgraph.h lines 87-93); carries the `costId` it was raised for. -/
structure CondCostTooHigh where
  costId : Int
deriving DecidableEq, Repr

/-! ## Input position tracking (src/src/input.c lines 127-155) -/

/-- Position-tracking fields of `struct input_impl_seq`. -/
structure InputImplSeq where
  line : Int
  column : Int
  byte : Int
deriving DecidableEq, Repr

/-- Keep the position up to date after consuming text
(input.c lines 127-141): for every byte, bump the column, or on a newline
bump the line and reset the column to 1; finally add the length to `byte`. -/
def update_position_seq (is : InputImplSeq) (data : List Char) : InputImplSeq :=
  let stepped := data.foldl
    (fun s c =>
      if c ≠ '\n' then { s with column := s.column + 1 }
      else { s with line := s.line + 1, column := 1 })
    is
  { stepped with byte := stepped.byte + data.length }

/-- Keep the position up to date after sending back text
(input.c lines 144-155): for every newline, decrement the line; subtract
the length from `byte`. The column is not touched (the source carries a
FIXME noting the restore should be based on the parsed token's position). -/
def undo_position_seq (is : InputImplSeq) (data : List Char) : InputImplSeq :=
  let stepped := data.foldl
    (fun s c => if c = '\n' then { s with line := s.line - 1 } else s)
    is
  { stepped with byte := stepped.byte - data.length }

/-- Concrete stream position used to exercise the update/undo round trip. -/
def posBeforeUpdate : InputImplSeq := { line := 1, column := 5, byte := 0 }

/-! ## Action and priority tables (spec section 4.2)

The bodies of `ActionTable::setAction` / `setActions` and
`PriorTable::setPrior` / `setPriors` live in a translation unit that is not
part of src/; they are modelled from the spec here and are consumed by
`FsmAp.addInTrans`, which is in src/. Tables are kept as lists sorted by
their key. -/

/-- Modelled from the spec: `ActionTable::setAction(ordering, action)`
"inserts unless `ordering` already present" (spec section 4.2). The table is
an ordered map from ordering to action id. -/
def ActionTable.setAction (tbl : List (Int × Nat)) (ordering : Int) (action : Nat) :
    List (Int × Nat) :=
  match tbl with
  | [] => [(ordering, action)]
  | (o, a) :: rest =>
    if ordering < o then (ordering, action) :: (o, a) :: rest
    else if ordering = o then (o, a) :: rest
    else (o, a) :: ActionTable.setAction rest ordering action

/-- Modelled from the spec: `ActionTable::setActions(other)` "is set union
by ordering" (spec section 4.2). -/
def ActionTable.setActions (tbl other : List (Int × Nat)) : List (Int × Nat) :=
  other.foldl (fun t p => ActionTable.setAction t p.1 p.2) tbl

/-- Shared priority descriptor (fsmgraph.h lines 339-352). -/
structure PriorDesc where
  key : Int
  priority : Int
  guardId : Int
deriving DecidableEq, Repr

/-- Element of a priority table (fsmgraph.h lines 356-363). -/
structure PriorEl where
  ordering : Int
  desc : PriorDesc
deriving DecidableEq, Repr

/-- Modelled from the spec: `PriorTable::setPrior(ordering, desc)` "inserts
`(ordering, desc)` and, if a pair with the same `desc->key` already exists,
keeps the one with higher `desc->priority`" (spec section 4.2). -/
def PriorTable.setPrior (tbl : List PriorEl) (el : PriorEl) : List PriorEl :=
  match tbl with
  | [] => [el]
  | e :: rest =>
    if e.desc.key = el.desc.key then
      if e.desc.priority < el.desc.priority then el :: rest else e :: rest
    else e :: PriorTable.setPrior rest el

/-- Modelled from the spec: `PriorTable::setPriors(other)` "applies this rule
over a full table" (spec section 4.2). -/
def PriorTable.setPriors (tbl other : List PriorEl) : List PriorEl :=
  other.foldl PriorTable.setPrior tbl

/-- The table payload shared by plain transitions and cond transitions
(fsmgraph.h, struct TransData): action table, priority table, LM action
table. Longest-match parts are modelled by `Nat` identifiers. -/
structure TransData where
  actionTable : List (Int × Nat)
  priorTable : List PriorEl
  lmActionTable : List (Int × Nat)
deriving DecidableEq, Repr

/-- Merge callback `FsmAp::addInTrans` (fsmgraph.h lines 1997-2012).
The `aliased` flag models the pointer test `srcTrans == destTrans`; when it
is set, the caller passes the same transition for both arguments. In the
aliased branch the source makes copies of the tables before unioning
(copying is the identity in this value model) and does not touch the
priority table; in the distinct branch priorities are merged as well. -/
def FsmAp.addInTrans (aliased : Bool) (destTrans srcTrans : TransData) : TransData :=
  if aliased then
    { destTrans with
      lmActionTable := ActionTable.setActions destTrans.lmActionTable srcTrans.lmActionTable
      actionTable := ActionTable.setActions destTrans.actionTable srcTrans.actionTable }
  else
    { destTrans with
      lmActionTable := ActionTable.setActions destTrans.lmActionTable srcTrans.lmActionTable
      actionTable := ActionTable.setActions destTrans.actionTable srcTrans.actionTable
      priorTable := PriorTable.setPriors destTrans.priorTable srcTrans.priorTable }

/-! ## Theorems for the table-level claims -/

/-- C3 counterexample: `numRefs` does not return the sum of all six
counters — on an action whose only reference is a condition reference, the
six-counter sum is 1 while `numRefs` returns 0. -/
theorem numRefs_not_sum_of_six :
    ¬ (actionOnlyCondRef.numRefs =
        actionOnlyCondRef.numTransRefs + actionOnlyCondRef.numToStateRefs +
        actionOnlyCondRef.numFromStateRefs + actionOnlyCondRef.numEofRefs +
        actionOnlyCondRef.numCondRefs + actionOnlyCondRef.numNfaRefs) := by
  decide

/-- C3 (amended): for every `Action`, `numRefs()` returns the sum of five of
its reference counters — transition, to-state, from-state, eof and nfa;
`numCondRefs` is not included in the sum. -/
theorem numRefs_eq_sum_of_five (a : Action) :
    a.numRefs =
      a.numTransRefs + a.numToStateRefs + a.numFromStateRefs +
      a.numEofRefs + a.numNfaRefs := rfl

/-- C5: for every condition space, `fullSize()` equals 2 raised to the
number of guard actions in its `condSet`. -/
theorem fullSize_eq_two_pow (cs : CondSpace) :
    cs.fullSize = 2 ^ cs.condSet.length := by
  simp [CondSpace.fullSize, Nat.shiftLeft_eq]

/-- C6: a transition is a tagged union discriminated by `condSpace == null`:
`plain()` holds iff `condSpace` is null, `tdap()` returns the transition
itself exactly when `plain()` holds and null otherwise, `tcap()` returns the
transition itself exactly when `plain()` fails and null otherwise; so exactly
one of `tcap()` and `tdap()` is non-null. -/
theorem transAp_tagged_union (t : TransAp) :
    (t.plain = true ↔ t.condSpace = none)
      ∧ (t.tdap = some t ↔ t.plain = true)
      ∧ (t.tdap = none ↔ t.plain = false)
      ∧ (t.tcap = some t ↔ t.plain = false)
      ∧ (t.tcap = none ↔ t.plain = true) := by
  cases h : t.condSpace <;>
    simp [TransAp.plain, TransAp.tdap, TransAp.tcap, h]

/-- C7 counterexample: three of the five fault kinds are subsingleton types
— `TooManyStates`, `RepetitionError` and `TransDensity` carry no field at
all, so their exception values cannot name the offending datum. -/
theorem three_faults_carry_no_datum :
    (∀ a b : TooManyStates, a = b)
      ∧ (∀ a b : RepetitionError, a = b)
      ∧ (∀ a b : TransDensity, a = b) := by
  refine ⟨fun a b => ?_, fun a b => ?_, fun a b => ?_⟩ <;> cases a <;> cases b <;> rfl

/-- C7 (amended): of the five fault kinds, exactly `PriorInteraction` and
`CondCostTooHigh` carry the datum they were raised for (the colliding key
and the cost id, faithfully); `TooManyStates`, `RepetitionError` and
`TransDensity` carry no datum. -/
theorem faults_datum_payload :
    (∀ k : Int, (PriorInteraction.mk k).id = k)
      ∧ (∀ c : Int, (CondCostTooHigh.mk c).costId = c)
      ∧ (∀ a b : TooManyStates, a = b)
      ∧ (∀ a b : RepetitionError, a = b)
      ∧ (∀ a b : TransDensity, a = b) := by
  refine ⟨fun k => rfl, fun c => rfl, fun a b => ?_, fun a b => ?_, fun a b => ?_⟩ <;>
    cases a <;> cases b <;> rfl

/-- C8: at the concrete position `{line := 1, column := 5, byte := 0}` and
the block `"\na"` (which crosses a line boundary), running
`update_position_seq` followed by `undo_position_seq` restores the line and
byte but leaves the column at 2 instead of restoring it to 5: the round
trip is not position-accurate. -/
theorem undo_update_position_not_accurate :
    (undo_position_seq (update_position_seq posBeforeUpdate ['\n', 'a']) ['\n', 'a']).line
        = posBeforeUpdate.line
      ∧ (undo_position_seq (update_position_seq posBeforeUpdate ['\n', 'a']) ['\n', 'a']).byte
        = posBeforeUpdate.byte
      ∧ (undo_position_seq (update_position_seq posBeforeUpdate ['\n', 'a']) ['\n', 'a']).column
        = 2
      ∧ posBeforeUpdate.column = 5 := by
  refine ⟨?_, ?_, ?_, rfl⟩ <;> decide

/-- C10: when `addInTrans` merges a transition with itself, the priority
table is left unchanged and only the action table and LM action table are
unioned with copies of themselves; the priority-merge step runs only when
the two transitions are distinct. -/
theorem addInTrans_self_frame (t destTrans srcTrans : TransData) :
    ((FsmAp.addInTrans true t t).priorTable = t.priorTable
        ∧ (FsmAp.addInTrans true t t).actionTable
            = ActionTable.setActions t.actionTable t.actionTable
        ∧ (FsmAp.addInTrans true t t).lmActionTable
            = ActionTable.setActions t.lmActionTable t.lmActionTable)
      ∧ (FsmAp.addInTrans false destTrans srcTrans).priorTable
          = PriorTable.setPriors destTrans.priorTable srcTrans.priorTable := by
  exact ⟨⟨rfl, rfl, rfl⟩, rfl⟩

/-! ## RangePairIter (src/src/fsmgraph.h lines 1192-1456)

The coroutine iterator over two sorted disjoint-range lists, embedded as an
explicit step function on its full state. Each CO_RETURN point of
`findNext` becomes a value of `IterState`; `findNext` resumes from that
point, executes the post-yield statements and re-enters the scan loop.
Every path through the loop body yields or reaches the end state, so one
resumption is a total function. `keyOps->lt` is `<` on `Int` and
`increment`/`decrement` are `+ 1` / `- 1`. -/

/-- A key range together with the identity of the transition carrying it;
`id` models the `transPtr` payload pointer read through `trans`. -/
structure Rng where
  low : Int
  high : Int
  id : Nat
deriving DecidableEq, Repr

/-- The next-trans slot `RangePairIter::NextTrans` (fsmgraph.h lines
1216-1247): a copied key pair plus the iterator positions `trans` and
`next`, each modelled as the list from that position onward. -/
structure Tel where
  lowKey : Int
  highKey : Int
  trans : List Rng
  next : List Rng
deriving DecidableEq, Repr

/-- `NextTrans::load` (fsmgraph.h lines 1228-1236): clear `next` at the end
of the list, otherwise copy the current range's keys and point `next` past
the current element. -/
def Tel.load (t : Tel) : Tel :=
  match t.trans with
  | [] => { t with next := [] }
  | r :: rest => { t with next := rest, lowKey := r.low, highKey := r.high }

/-- `NextTrans::set` (fsmgraph.h lines 1238-1241). -/
def Tel.set (t : Tel) (l : List Rng) : Tel :=
  Tel.load { t with trans := l }

/-- `NextTrans::increment` (fsmgraph.h lines 1243-1246). -/
def Tel.increment (t : Tel) : Tel :=
  Tel.load { t with trans := t.next }

/-- User states of `RangePairIter` (fsmgraph.h lines 1195-1200). -/
inductive RangePairIter.UserState
  | RangeInS1 | RangeInS2
  | RangeOverlap
  | BreakS1 | BreakS2
deriving DecidableEq, Repr

/-- Resumption states of `RangePairIter` (fsmgraph.h lines 1203-1212). -/
inductive RangePairIter.IterState
  | Begin
  | ConsumeS1Range | ConsumeS2Range
  | OnlyInS1Range | OnlyInS2Range
  | S1SticksOut | S1SticksOutBreak
  | S2SticksOut | S2SticksOutBreak
  | S1DragsBehind | S1DragsBehindBreak
  | S2DragsBehind | S2DragsBehindBreak
  | ExactOverlap | End
deriving DecidableEq, Repr

/-- Full iterator state of `RangePairIter` (fsmgraph.h lines 1255-1267). -/
structure RangePairIter where
  list1 : List Rng
  list2 : List Rng
  itState : RangePairIter.IterState
  userState : RangePairIter.UserState
  s1Tel : Tel
  s2Tel : Tel
  bottomLow : Int
  bottomHigh : Int
  bottomTrans1 : List Rng
  bottomTrans2 : List Rng
deriving DecidableEq, Repr

namespace RangePairIter

/-- The body of the concurrent scan loop (fsmgraph.h lines 1317-1455); it
is entered at the top of the `while` and always reaches either a CO_RETURN
(recorded as the new `itState`/`userState`) or the end state. -/
def scan (st : RangePairIter) : RangePairIter :=
  match st.s1Tel.trans, st.s2Tel.trans with
  | [], [] => { st with itState := .End }
  | [], _ :: _ => { st with itState := .ConsumeS2Range, userState := .RangeInS2 }
  | _ :: _, [] => { st with itState := .ConsumeS1Range, userState := .RangeInS1 }
  | _ :: _, _ :: _ =>
    if st.s1Tel.highKey < st.s2Tel.lowKey then
      { st with itState := .OnlyInS1Range, userState := .RangeInS1 }
    else if st.s2Tel.highKey < st.s1Tel.lowKey then
      { st with itState := .OnlyInS2Range, userState := .RangeInS2 }
    else if st.s1Tel.lowKey < st.s2Tel.lowKey then
      { st with
        bottomLow := st.s2Tel.lowKey
        bottomHigh := st.s1Tel.highKey
        s1Tel := { st.s1Tel with highKey := st.s2Tel.lowKey - 1 }
        bottomTrans1 := st.s1Tel.trans
        itState := .S1SticksOutBreak, userState := .BreakS1 }
    else if st.s2Tel.lowKey < st.s1Tel.lowKey then
      { st with
        bottomLow := st.s1Tel.lowKey
        bottomHigh := st.s2Tel.highKey
        s2Tel := { st.s2Tel with highKey := st.s1Tel.lowKey - 1 }
        bottomTrans2 := st.s2Tel.trans
        itState := .S2SticksOutBreak, userState := .BreakS2 }
    else if st.s1Tel.highKey < st.s2Tel.highKey then
      { st with
        bottomLow := st.s1Tel.highKey + 1
        bottomHigh := st.s2Tel.highKey
        s2Tel := { st.s2Tel with highKey := st.s1Tel.highKey }
        bottomTrans2 := st.s2Tel.trans
        itState := .S2DragsBehindBreak, userState := .BreakS2 }
    else if st.s2Tel.highKey < st.s1Tel.highKey then
      { st with
        bottomLow := st.s2Tel.highKey + 1
        bottomHigh := st.s1Tel.highKey
        s1Tel := { st.s1Tel with highKey := st.s2Tel.highKey }
        bottomTrans1 := st.s1Tel.trans
        itState := .S1DragsBehindBreak, userState := .BreakS1 }
    else
      { st with itState := .ExactOverlap, userState := .RangeOverlap }

/-- One resumption of `RangePairIter::findNext` (fsmgraph.h lines
1289-1456): jump to the recorded label, run the post-yield statements and
re-enter the scan loop (or, in the consume states, the inner drain loop). -/
def findNext (st : RangePairIter) : RangePairIter :=
  match st.itState with
  | .Begin =>
    scan { st with s1Tel := st.s1Tel.set st.list1, s2Tel := st.s2Tel.set st.list2 }
  | .ConsumeS1Range =>
    let s1 := st.s1Tel.increment
    if s1.trans.isEmpty then { st with s1Tel := s1, itState := .End }
    else { st with s1Tel := s1, itState := .ConsumeS1Range, userState := .RangeInS1 }
  | .ConsumeS2Range =>
    let s2 := st.s2Tel.increment
    if s2.trans.isEmpty then { st with s2Tel := s2, itState := .End }
    else { st with s2Tel := s2, itState := .ConsumeS2Range, userState := .RangeInS2 }
  | .OnlyInS1Range => scan { st with s1Tel := st.s1Tel.increment }
  | .OnlyInS2Range => scan { st with s2Tel := st.s2Tel.increment }
  | .S1SticksOutBreak => { st with itState := .S1SticksOut, userState := .RangeInS1 }
  | .S1SticksOut =>
    scan { st with s1Tel :=
      { st.s1Tel with lowKey := st.bottomLow, highKey := st.bottomHigh, trans := st.bottomTrans1 } }
  | .S2SticksOutBreak => { st with itState := .S2SticksOut, userState := .RangeInS2 }
  | .S2SticksOut =>
    scan { st with s2Tel :=
      { st.s2Tel with lowKey := st.bottomLow, highKey := st.bottomHigh, trans := st.bottomTrans2 } }
  | .S2DragsBehindBreak => { st with itState := .S2DragsBehind, userState := .RangeOverlap }
  | .S2DragsBehind =>
    scan { st with
      s2Tel :=
        { st.s2Tel with lowKey := st.bottomLow, highKey := st.bottomHigh, trans := st.bottomTrans2 }
      s1Tel := st.s1Tel.increment }
  | .S1DragsBehindBreak => { st with itState := .S1DragsBehind, userState := .RangeOverlap }
  | .S1DragsBehind =>
    scan { st with
      s1Tel :=
        { st.s1Tel with lowKey := st.bottomLow, highKey := st.bottomHigh, trans := st.bottomTrans1 }
      s2Tel := st.s2Tel.increment }
  | .ExactOverlap =>
    scan { st with s1Tel := st.s1Tel.increment, s2Tel := st.s2Tel.increment }
  | .End => st

/-- The constructor `RangePairIter::RangePairIter` (fsmgraph.h lines
1274-1285): begin state, zeroed bottom slots and key slots, then one
`findNext` to advance to the first item. The initial `userState` is
unobservable (no yield has happened); it is fixed arbitrarily. -/
def init (l1 l2 : List Rng) : RangePairIter :=
  findNext
    { list1 := l1, list2 := l2
      itState := .Begin, userState := .RangeInS1
      s1Tel := { lowKey := 0, highKey := 0, trans := [], next := [] }
      s2Tel := { lowKey := 0, highKey := 0, trans := [], next := [] }
      bottomLow := 0, bottomHigh := 0
      bottomTrans1 := [], bottomTrans2 := [] }

/-- Iterated resumption: the state after `n` further `findNext` calls. -/
def nextN : Nat → RangePairIter → RangePairIter
  | 0, st => st
  | n + 1, st => nextN n (findNext st)

end RangePairIter

/-- The datum a caller observes after a yielding resumption: the user
state, the keys of the current segment and the identities of the head
transitions involved on each side. -/
structure Ev where
  us : RangePairIter.UserState
  low : Int
  high : Int
  id1 : Option Nat
  id2 : Option Nat
deriving DecidableEq, Repr

namespace RangePairIter

/-- Observation of the paused iterator: callers read `userState` and the
`s1Tel` / `s2Tel` key slots and trans pointers. -/
def evOf (st : RangePairIter) : Ev :=
  match st.userState with
  | .RangeInS1 =>
    ⟨.RangeInS1, st.s1Tel.lowKey, st.s1Tel.highKey, st.s1Tel.trans.head?.map Rng.id, none⟩
  | .BreakS1 =>
    ⟨.BreakS1, st.s1Tel.lowKey, st.s1Tel.highKey, st.s1Tel.trans.head?.map Rng.id, none⟩
  | .RangeInS2 =>
    ⟨.RangeInS2, st.s2Tel.lowKey, st.s2Tel.highKey, none, st.s2Tel.trans.head?.map Rng.id⟩
  | .BreakS2 =>
    ⟨.BreakS2, st.s2Tel.lowKey, st.s2Tel.highKey, none, st.s2Tel.trans.head?.map Rng.id⟩
  | .RangeOverlap =>
    ⟨.RangeOverlap, st.s1Tel.lowKey, st.s1Tel.highKey,
      st.s1Tel.trans.head?.map Rng.id, st.s2Tel.trans.head?.map Rng.id⟩

/-- The event stream from a paused state: collect the pending event and
resume, until the end state (or the fuel runs out). -/
def runAux : Nat → RangePairIter → List Ev
  | 0, _ => []
  | fuel + 1, st =>
    if st.itState = IterState.End then []
    else evOf st :: runAux fuel (findNext st)

/-- The whole event stream of the iterator constructed on two lists. -/
def run (l1 l2 : List Rng) (fuel : Nat) : List Ev :=
  runAux fuel (init l1 l2)

end RangePairIter

/-! ## ValPairIter (src/src/fsmgraph.h lines 1042-1190)

The companion single-key walk used on cond lists. Items carry one `CondKey`
(`<` on `Int`); there are no split states and no break events. -/

/-- A single-key item with the identity of the cond element carrying it. -/
structure ValItem where
  key : Int
  id : Nat
deriving DecidableEq, Repr

/-- The next-trans slot `ValPairIter::NextTrans` (fsmgraph.h lines
1061-1087). -/
structure VTel where
  key : Int
  trans : List ValItem
  next : List ValItem
deriving DecidableEq, Repr

/-- `ValPairIter::NextTrans::load` (fsmgraph.h lines 1069-1076). -/
def VTel.load (t : VTel) : VTel :=
  match t.trans with
  | [] => { t with next := [] }
  | v :: rest => { t with next := rest, key := v.key }

/-- `ValPairIter::NextTrans::set` (fsmgraph.h lines 1078-1081). -/
def VTel.set (t : VTel) (l : List ValItem) : VTel :=
  VTel.load { t with trans := l }

/-- `ValPairIter::NextTrans::increment` (fsmgraph.h lines 1083-1086). -/
def VTel.increment (t : VTel) : VTel :=
  VTel.load { t with trans := t.next }

/-- User states of `ValPairIter` (fsmgraph.h lines 1045-1049). -/
inductive ValPairIter.UserState
  | RangeInS1 | RangeInS2
  | RangeOverlap
deriving DecidableEq, Repr

/-- Resumption states of `ValPairIter` (fsmgraph.h lines 1052-1057). -/
inductive ValPairIter.IterState
  | Begin
  | ConsumeS1Range | ConsumeS2Range
  | OnlyInS1Range | OnlyInS2Range
  | ExactOverlap | End
deriving DecidableEq, Repr

/-- Full iterator state of `ValPairIter` (fsmgraph.h lines 1095-1105). The
bottom slots are declared in the source but never written or read by
`findNext`. -/
structure ValPairIter where
  list1 : List ValItem
  list2 : List ValItem
  itState : ValPairIter.IterState
  userState : ValPairIter.UserState
  s1Tel : VTel
  s2Tel : VTel
  bottomLow : Int
  bottomHigh : Int
deriving DecidableEq, Repr

namespace ValPairIter

/-- The body of the concurrent scan loop of `ValPairIter::findNext`
(fsmgraph.h lines 1145-1186). -/
def scan (st : ValPairIter) : ValPairIter :=
  match st.s1Tel.trans, st.s2Tel.trans with
  | [], [] => { st with itState := .End }
  | [], _ :: _ => { st with itState := .ConsumeS2Range, userState := .RangeInS2 }
  | _ :: _, [] => { st with itState := .ConsumeS1Range, userState := .RangeInS1 }
  | _ :: _, _ :: _ =>
    if st.s1Tel.key < st.s2Tel.key then
      { st with itState := .OnlyInS1Range, userState := .RangeInS1 }
    else if st.s2Tel.key < st.s1Tel.key then
      { st with itState := .OnlyInS2Range, userState := .RangeInS2 }
    else
      { st with itState := .ExactOverlap, userState := .RangeOverlap }

/-- One resumption of `ValPairIter::findNext` (fsmgraph.h lines
1125-1190). -/
def findNext (st : ValPairIter) : ValPairIter :=
  match st.itState with
  | .Begin =>
    scan { st with s1Tel := st.s1Tel.set st.list1, s2Tel := st.s2Tel.set st.list2 }
  | .ConsumeS1Range =>
    let s1 := st.s1Tel.increment
    if s1.trans.isEmpty then { st with s1Tel := s1, itState := .End }
    else { st with s1Tel := s1, itState := .ConsumeS1Range, userState := .RangeInS1 }
  | .ConsumeS2Range =>
    let s2 := st.s2Tel.increment
    if s2.trans.isEmpty then { st with s2Tel := s2, itState := .End }
    else { st with s2Tel := s2, itState := .ConsumeS2Range, userState := .RangeInS2 }
  | .OnlyInS1Range => scan { st with s1Tel := st.s1Tel.increment }
  | .OnlyInS2Range => scan { st with s2Tel := st.s2Tel.increment }
  | .ExactOverlap =>
    scan { st with s1Tel := st.s1Tel.increment, s2Tel := st.s2Tel.increment }
  | .End => st

/-- The constructor `ValPairIter::ValPairIter` (fsmgraph.h lines
1112-1121): begin state, then one `findNext`. -/
def init (l1 l2 : List ValItem) : ValPairIter :=
  findNext
    { list1 := l1, list2 := l2
      itState := .Begin, userState := .RangeInS1
      s1Tel := { key := 0, trans := [], next := [] }
      s2Tel := { key := 0, trans := [], next := [] }
      bottomLow := 0, bottomHigh := 0 }

end ValPairIter

/-- The datum a caller observes from a paused `ValPairIter`. -/
structure VEv where
  us : ValPairIter.UserState
  key : Int
  id1 : Option Nat
  id2 : Option Nat
deriving DecidableEq, Repr

namespace ValPairIter

/-- Observation of the paused iterator. -/
def evOf (st : ValPairIter) : VEv :=
  match st.userState with
  | .RangeInS1 => ⟨.RangeInS1, st.s1Tel.key, st.s1Tel.trans.head?.map ValItem.id, none⟩
  | .RangeInS2 => ⟨.RangeInS2, st.s2Tel.key, none, st.s2Tel.trans.head?.map ValItem.id⟩
  | .RangeOverlap =>
    ⟨.RangeOverlap, st.s1Tel.key,
      st.s1Tel.trans.head?.map ValItem.id, st.s2Tel.trans.head?.map ValItem.id⟩

/-- The event stream from a paused state, fuel-bounded. -/
def runAux : Nat → ValPairIter → List VEv
  | 0, _ => []
  | fuel + 1, st =>
    if st.itState = IterState.End then []
    else evOf st :: runAux fuel (findNext st)

/-- The whole event stream of the iterator constructed on two lists. -/
def run (l1 l2 : List ValItem) (fuel : Nat) : List VEv :=
  runAux fuel (init l1 l2)

end ValPairIter

/-! ## C2: the s1-sticks-out-front split -/

/-- C2: whenever the scan loop is entered with both heads present,
overlapping, and the s1 head's `lowKey` strictly below the s2 head's
`lowKey` (fsmgraph.h lines 1352-1372), the iterator yields `BreakS1` with
`s1Tel` already trimmed, then on the next resumption yields `RangeInS1`
covering exactly `[s1.lowKey, s2.lowKey - 1]` on the same transition, and
on the resumption after that re-enters the scan with the s1 head replaced
by the remainder `[s2.lowKey, original s1.highKey]`, still referring to the
same transition, the s2 side untouched. -/
theorem rangePairIter_s1_sticks_out_front (st : Colm.RangePairIter)
    (h1 : st.s1Tel.trans ≠ [])
    (h2 : st.s2Tel.trans ≠ [])
    (hno1 : ¬ st.s1Tel.highKey < st.s2Tel.lowKey)
    (hno2 : ¬ st.s2Tel.highKey < st.s1Tel.lowKey)
    (hlt : st.s1Tel.lowKey < st.s2Tel.lowKey) :
    (RangePairIter.scan st).userState = .BreakS1
      ∧ (RangePairIter.scan st).s1Tel.lowKey = st.s1Tel.lowKey
      ∧ (RangePairIter.scan st).s1Tel.highKey = st.s2Tel.lowKey - 1
      ∧ (RangePairIter.scan st).s1Tel.trans = st.s1Tel.trans
      ∧ (RangePairIter.findNext (RangePairIter.scan st)).userState = .RangeInS1
      ∧ (RangePairIter.findNext (RangePairIter.scan st)).s1Tel.lowKey = st.s1Tel.lowKey
      ∧ (RangePairIter.findNext (RangePairIter.scan st)).s1Tel.highKey = st.s2Tel.lowKey - 1
      ∧ (RangePairIter.findNext (RangePairIter.scan st)).s1Tel.trans = st.s1Tel.trans
      ∧ ∃ st3 : Colm.RangePairIter,
          RangePairIter.findNext (RangePairIter.findNext (RangePairIter.scan st))
              = RangePairIter.scan st3
            ∧ st3.s1Tel.lowKey = st.s2Tel.lowKey
            ∧ st3.s1Tel.highKey = st.s1Tel.highKey
            ∧ st3.s1Tel.trans = st.s1Tel.trans
            ∧ st3.s2Tel = st.s2Tel := by
  obtain ⟨a, t1, hA⟩ := List.exists_cons_of_ne_nil h1
  obtain ⟨b, t2, hB⟩ := List.exists_cons_of_ne_nil h2
  have hs : RangePairIter.scan st =
      { st with
        bottomLow := st.s2Tel.lowKey
        bottomHigh := st.s1Tel.highKey
        s1Tel := { st.s1Tel with highKey := st.s2Tel.lowKey - 1 }
        bottomTrans1 := st.s1Tel.trans
        itState := .S1SticksOutBreak, userState := .BreakS1 } := by
    simp [RangePairIter.scan, hA, hB, hno1, hno2, hlt]
  rw [hs]
  refine ⟨rfl, rfl, rfl, rfl, rfl, rfl, rfl, rfl, ?_⟩
  exact ⟨_, rfl, rfl, rfl, rfl, rfl⟩

/-- Concrete iterator state exercising the s1-sticks-out-front split. -/
def c2state : RangePairIter :=
  { list1 := [], list2 := []
    itState := .Begin, userState := .RangeInS1
    s1Tel := { lowKey := 0, highKey := 10, trans := [⟨0, 10, 0⟩], next := [] }
    s2Tel := { lowKey := 3, highKey := 5, trans := [⟨3, 5, 1⟩], next := [] }
    bottomLow := 0, bottomHigh := 0, bottomTrans1 := [], bottomTrans2 := [] }

/-- Witness for C2 at the concrete state `c2state`. -/
theorem rangePairIter_s1_sticks_out_front_witness :
    (RangePairIter.scan c2state).userState = .BreakS1
      ∧ (RangePairIter.scan c2state).s1Tel.lowKey = c2state.s1Tel.lowKey
      ∧ (RangePairIter.scan c2state).s1Tel.highKey = c2state.s2Tel.lowKey - 1
      ∧ (RangePairIter.scan c2state).s1Tel.trans = c2state.s1Tel.trans
      ∧ (RangePairIter.findNext (RangePairIter.scan c2state)).userState = .RangeInS1
      ∧ (RangePairIter.findNext (RangePairIter.scan c2state)).s1Tel.lowKey
          = c2state.s1Tel.lowKey
      ∧ (RangePairIter.findNext (RangePairIter.scan c2state)).s1Tel.highKey
          = c2state.s2Tel.lowKey - 1
      ∧ (RangePairIter.findNext (RangePairIter.scan c2state)).s1Tel.trans
          = c2state.s1Tel.trans
      ∧ ∃ st3 : Colm.RangePairIter,
          RangePairIter.findNext (RangePairIter.findNext (RangePairIter.scan c2state))
              = RangePairIter.scan st3
            ∧ st3.s1Tel.lowKey = c2state.s2Tel.lowKey
            ∧ st3.s1Tel.highKey = c2state.s1Tel.highKey
            ∧ st3.s1Tel.trans = c2state.s1Tel.trans
            ∧ st3.s2Tel = c2state.s2Tel :=
  rangePairIter_s1_sticks_out_front c2state
    (by decide) (by decide) (by decide) (by decide) (by decide)

/-! ## C4: ValPairIter refines RangePairIter on degenerate ranges -/

/-- The degenerate range corresponding to a single-key item:
`lowKey = highKey = key`, same payload identity. -/
def degen (v : ValItem) : Rng :=
  ⟨v.key, v.key, v.id⟩

/-- The range-iterator slot corresponding to a single-key slot. -/
def degenTel (t : VTel) : Tel :=
  ⟨t.key, t.key, t.trans.map degen, t.next.map degen⟩

/-- Correspondence of resumption states; the split states of the range
iterator have no counterpart. -/
def mapIterState : ValPairIter.IterState → RangePairIter.IterState
  | .Begin => .Begin
  | .ConsumeS1Range => .ConsumeS1Range
  | .ConsumeS2Range => .ConsumeS2Range
  | .OnlyInS1Range => .OnlyInS1Range
  | .OnlyInS2Range => .OnlyInS2Range
  | .ExactOverlap => .ExactOverlap
  | .End => .End

/-- Correspondence of user states; the break states have no counterpart. -/
def mapUserState : ValPairIter.UserState → RangePairIter.UserState
  | .RangeInS1 => .RangeInS1
  | .RangeInS2 => .RangeInS2
  | .RangeOverlap => .RangeOverlap

/-- The range event corresponding to a single-key event. -/
def toRangeEv (e : VEv) : Ev :=
  ⟨mapUserState e.us, e.key, e.key, e.id1, e.id2⟩

/-- Simulation relation between a `ValPairIter` state and a `RangePairIter`
state over the degenerate ranges. The bottom slots of the range iterator
are unconstrained: they are only written by the split branches, which the
simulation shows are never taken. -/
def ValSim (sv : ValPairIter) (sr : RangePairIter) : Prop :=
  sr.itState = mapIterState sv.itState
    ∧ sr.userState = mapUserState sv.userState
    ∧ sr.s1Tel = degenTel sv.s1Tel
    ∧ sr.s2Tel = degenTel sv.s2Tel
    ∧ sr.list1 = sv.list1.map degen
    ∧ sr.list2 = sv.list2.map degen

theorem degenTel_load (t : VTel) : degenTel (VTel.load t) = Tel.load (degenTel t) := by
  cases h : t.trans with
  | nil => simp [VTel.load, Tel.load, degenTel, h]
  | cons v rest => simp [VTel.load, Tel.load, degenTel, h, degen]

theorem degenTel_set (t : VTel) (l : List ValItem) :
    degenTel (VTel.set t l) = Tel.set (degenTel t) (l.map degen) := by
  cases h : l with
  | nil => simp [VTel.set, Tel.set, VTel.load, Tel.load, degenTel, h]
  | cons v rest => simp [VTel.set, Tel.set, VTel.load, Tel.load, degenTel, h, degen]

theorem degenTel_increment (t : VTel) :
    degenTel (VTel.increment t) = Tel.increment (degenTel t) := by
  cases h : t.next with
  | nil => simp [VTel.increment, Tel.increment, VTel.load, Tel.load, degenTel, h]
  | cons v rest => simp [VTel.increment, Tel.increment, VTel.load, Tel.load, degenTel, h, degen]

theorem head_id_degen (l : List ValItem) :
    (l.map degen).head?.map Rng.id = l.head?.map ValItem.id := by
  cases l <;> simp [degen]

theorem map_comp_id_degen (o : Option ValItem) :
    o.map (Rng.id ∘ degen) = o.map ValItem.id := by
  cases o <;> simp [degen, Function.comp]

theorem valSim_scan {sv : ValPairIter} {sr : RangePairIter} (h : ValSim sv sr) :
    ValSim (ValPairIter.scan sv) (RangePairIter.scan sr) := by
  obtain ⟨hit, hus, h1, h2, hl1, hl2⟩ := h
  cases hA : sv.s1Tel.trans with
  | nil =>
    cases hB : sv.s2Tel.trans with
    | nil =>
      simp [ValPairIter.scan, RangePairIter.scan, hA, hB, h1, h2, degenTel, ValSim,
        hit, hus, hl1, hl2, mapIterState]
    | cons b t2 =>
      simp [ValPairIter.scan, RangePairIter.scan, hA, hB, h1, h2, degenTel, ValSim,
        hit, hus, hl1, hl2, mapIterState, mapUserState]
  | cons a t1 =>
    cases hB : sv.s2Tel.trans with
    | nil =>
      simp [ValPairIter.scan, RangePairIter.scan, hA, hB, h1, h2, degenTel, ValSim,
        hit, hus, hl1, hl2, mapIterState, mapUserState]
    | cons b t2 =>
      by_cases hk1 : sv.s1Tel.key < sv.s2Tel.key
      · simp [ValPairIter.scan, RangePairIter.scan, hA, hB, h1, h2, degenTel, ValSim,
          hit, hus, hl1, hl2, mapIterState, mapUserState, hk1]
      · by_cases hk2 : sv.s2Tel.key < sv.s1Tel.key
        · simp [ValPairIter.scan, RangePairIter.scan, hA, hB, h1, h2, degenTel, ValSim,
            hit, hus, hl1, hl2, mapIterState, mapUserState, hk1, hk2]
        · simp [ValPairIter.scan, RangePairIter.scan, hA, hB, h1, h2, degenTel, ValSim,
            hit, hus, hl1, hl2, mapIterState, mapUserState, hk1, hk2]

theorem valSim_findNext {sv : ValPairIter} {sr : RangePairIter} (h : ValSim sv sr) :
    ValSim (ValPairIter.findNext sv) (RangePairIter.findNext sr) := by
  obtain ⟨hit, hus, h1, h2, hl1, hl2⟩ := h
  cases hS : sv.itState
  case Begin =>
    have hpre : ValSim
        { sv with s1Tel := sv.s1Tel.set sv.list1, s2Tel := sv.s2Tel.set sv.list2 }
        { sr with s1Tel := sr.s1Tel.set sr.list1, s2Tel := sr.s2Tel.set sr.list2 } := by
      refine ⟨hit, hus, ?_, ?_, hl1, hl2⟩ <;>
        simp [h1, h2, hl1, hl2, degenTel_set]
    have := valSim_scan hpre
    simpa [ValPairIter.findNext, RangePairIter.findNext, hS, hit, mapIterState] using this
  case ConsumeS1Range =>
    have hinc : degenTel sv.s1Tel.increment = (sr.s1Tel).increment := by
      rw [h1, degenTel_increment]
    have htr : ((sr.s1Tel).increment).trans = ((sv.s1Tel.increment).trans).map degen := by
      rw [← hinc]
      rfl
    by_cases he : (sv.s1Tel.increment).trans = []
    · have he' : ((sr.s1Tel).increment).trans = [] := by
        rw [htr, he]
        rfl
      simp [ValPairIter.findNext, RangePairIter.findNext, hS, hit, mapIterState, he, he',
        List.isEmpty_iff, ValSim, hinc, hus, h2, hl1, hl2]
    · have he' : ¬ ((sr.s1Tel).increment).trans = [] := by
        rw [htr]
        simpa using he
      simp [ValPairIter.findNext, RangePairIter.findNext, hS, hit, mapIterState, he, he',
        List.isEmpty_iff, ValSim, hinc, hus, h2, hl1, hl2, mapUserState]
  case ConsumeS2Range =>
    have hinc : degenTel sv.s2Tel.increment = (sr.s2Tel).increment := by
      rw [h2, degenTel_increment]
    have htr : ((sr.s2Tel).increment).trans = ((sv.s2Tel.increment).trans).map degen := by
      rw [← hinc]
      rfl
    by_cases he : (sv.s2Tel.increment).trans = []
    · have he' : ((sr.s2Tel).increment).trans = [] := by
        rw [htr, he]
        rfl
      simp [ValPairIter.findNext, RangePairIter.findNext, hS, hit, mapIterState, he, he',
        List.isEmpty_iff, ValSim, hinc, hus, h1, hl1, hl2]
    · have he' : ¬ ((sr.s2Tel).increment).trans = [] := by
        rw [htr]
        simpa using he
      simp [ValPairIter.findNext, RangePairIter.findNext, hS, hit, mapIterState, he, he',
        List.isEmpty_iff, ValSim, hinc, hus, h1, hl1, hl2, mapUserState]
  case OnlyInS1Range =>
    have hpre : ValSim { sv with s1Tel := sv.s1Tel.increment }
        { sr with s1Tel := sr.s1Tel.increment } := by
      refine ⟨hit, hus, ?_, h2, hl1, hl2⟩
      simp [h1, degenTel_increment]
    have := valSim_scan hpre
    simpa [ValPairIter.findNext, RangePairIter.findNext, hS, hit, mapIterState] using this
  case OnlyInS2Range =>
    have hpre : ValSim { sv with s2Tel := sv.s2Tel.increment }
        { sr with s2Tel := sr.s2Tel.increment } := by
      refine ⟨hit, hus, h1, ?_, hl1, hl2⟩
      simp [h2, degenTel_increment]
    have := valSim_scan hpre
    simpa [ValPairIter.findNext, RangePairIter.findNext, hS, hit, mapIterState] using this
  case ExactOverlap =>
    have hpre : ValSim
        { sv with s1Tel := sv.s1Tel.increment, s2Tel := sv.s2Tel.increment }
        { sr with s1Tel := sr.s1Tel.increment, s2Tel := sr.s2Tel.increment } := by
      refine ⟨hit, hus, ?_, ?_, hl1, hl2⟩ <;> simp [h1, h2, degenTel_increment]
    have := valSim_scan hpre
    simpa [ValPairIter.findNext, RangePairIter.findNext, hS, hit, mapIterState] using this
  case End =>
    exact ⟨by simp [ValPairIter.findNext, RangePairIter.findNext, hS, hit, mapIterState],
      by simp [ValPairIter.findNext, RangePairIter.findNext, hS, hit, mapIterState, hus],
      by simp [ValPairIter.findNext, RangePairIter.findNext, hS, hit, mapIterState, h1],
      by simp [ValPairIter.findNext, RangePairIter.findNext, hS, hit, mapIterState, h2],
      by simp [ValPairIter.findNext, RangePairIter.findNext, hS, hit, mapIterState, hl1],
      by simp [ValPairIter.findNext, RangePairIter.findNext, hS, hit, mapIterState, hl2]⟩

theorem valSim_evOf {sv : ValPairIter} {sr : RangePairIter} (h : ValSim sv sr) :
    RangePairIter.evOf sr = toRangeEv (ValPairIter.evOf sv) := by
  obtain ⟨hit, hus, h1, h2, hl1, hl2⟩ := h
  cases hU : sv.userState <;>
    simp [RangePairIter.evOf, ValPairIter.evOf, hU, hus, h1, h2, degenTel, toRangeEv,
      mapUserState, head_id_degen, map_comp_id_degen]

theorem valSim_atEnd {sv : ValPairIter} {sr : RangePairIter} (h : ValSim sv sr) :
    (sr.itState = RangePairIter.IterState.End)
      = (sv.itState = ValPairIter.IterState.End) := by
  obtain ⟨hit, _, _, _, _, _⟩ := h
  cases hS : sv.itState <;> simp [hit, hS, mapIterState]

theorem valSim_runAux {sv : ValPairIter} {sr : RangePairIter}
    (h : ValSim sv sr) (fuel : Nat) :
    RangePairIter.runAux fuel sr = (ValPairIter.runAux fuel sv).map toRangeEv := by
  induction fuel generalizing sv sr with
  | zero => simp [RangePairIter.runAux, ValPairIter.runAux]
  | succ n ih =>
    by_cases he : sv.itState = ValPairIter.IterState.End
    · have he' : sr.itState = RangePairIter.IterState.End := by
        rw [valSim_atEnd h]
        exact he
      simp [RangePairIter.runAux, ValPairIter.runAux, he, he']
    · have he' : ¬ sr.itState = RangePairIter.IterState.End := by
        rw [valSim_atEnd h]
        exact he
      simp only [RangePairIter.runAux, ValPairIter.runAux, he, he', if_false, ite_false,
        if_neg, not_false_iff, List.map_cons]
      rw [valSim_evOf h, ih (valSim_findNext h)]

theorem valSim_init (l1 l2 : List ValItem) :
    ValSim (ValPairIter.init l1 l2) (RangePairIter.init (l1.map degen) (l2.map degen)) := by
  apply valSim_findNext
  exact ⟨rfl, rfl, by simp [degenTel], by simp [degenTel], rfl, rfl⟩

/-- C4: on the degenerate ranges `lowKey = highKey = key`, `RangePairIter`
performs exactly the walk of `ValPairIter`: the event streams agree
classification by classification over the same elements, and the range
iterator never yields a break (split) event. -/
theorem valPairIter_same_walk_as_rangePairIter (l1 l2 : List ValItem) (fuel : Nat) :
    RangePairIter.run (l1.map degen) (l2.map degen) fuel
        = (ValPairIter.run l1 l2 fuel).map toRangeEv
      ∧ ∀ e ∈ RangePairIter.run (l1.map degen) (l2.map degen) fuel,
          e.us ≠ RangePairIter.UserState.BreakS1
            ∧ e.us ≠ RangePairIter.UserState.BreakS2 := by
  have hrun := valSim_runAux (valSim_init l1 l2) fuel
  refine ⟨hrun, ?_⟩
  intro e he
  rw [RangePairIter.run, hrun] at he
  obtain ⟨v, _, hv⟩ := List.mem_map.mp he
  subst hv
  cases hU : v.us <;> simp [toRangeEv, hU, mapUserState]

/-- Witness for C4 at concrete single-key lists. -/
theorem valPairIter_same_walk_witness :
    RangePairIter.run ([⟨1, 0⟩, ⟨3, 1⟩].map degen) ([⟨3, 2⟩].map degen) 10
        = (ValPairIter.run [⟨1, 0⟩, ⟨3, 1⟩] [⟨3, 2⟩] 10).map toRangeEv
      ∧ ∀ e ∈ RangePairIter.run ([⟨1, 0⟩, ⟨3, 1⟩].map degen) ([⟨3, 2⟩].map degen) 10,
          e.us ≠ RangePairIter.UserState.BreakS1
            ∧ e.us ≠ RangePairIter.UserState.BreakS2 :=
  valPairIter_same_walk_as_rangePairIter [⟨1, 0⟩, ⟨3, 1⟩] [⟨3, 2⟩] 10

/-! ## C1 and C9: ordering, termination and single-pass infrastructure

A range list handed to `RangePairIter` is sorted and pairwise disjoint when
`rngChain b` holds: every range is non-empty, lies at or above the bound
`b`, and strictly precedes the next range. -/

/-- Sorted pairwise-disjoint non-empty ranges above a lower bound. -/
def rngChain (b : Int) : List Rng → Bool
  | [] => true
  | r :: rest => decide (b ≤ r.low) && decide (r.low ≤ r.high) && rngChain (r.high + 1) rest

theorem rngChain_cons {b : Int} {r : Rng} {rest : List Rng} :
    rngChain b (r :: rest) = true
      ↔ b ≤ r.low ∧ r.low ≤ r.high ∧ rngChain (r.high + 1) rest = true := by
  simp [rngChain, Bool.and_eq_true, decide_eq_true_eq, and_assoc]

/-- Well-formedness of a next-trans slot relative to a lower bound: the
`next` pointer trails the `trans` pointer by one, the working range
`[lowKey, highKey]` is a non-empty sub-interval at or above the bound that
ends no later than the underlying head range, and the rest of the list is
chained after the head. -/
def telWF (b : Int) (t : Tel) : Prop :=
  match t.trans with
  | [] => t.next = []
  | r :: rest =>
    t.next = rest ∧ b ≤ t.lowKey ∧ t.lowKey ≤ t.highKey ∧ t.highKey ≤ r.high
      ∧ rngChain (r.high + 1) rest = true

theorem telWF_set {b : Int} (t : Tel) {l : List Rng} (h : rngChain b l = true) :
    telWF b (Tel.set t l) := by
  cases l with
  | nil => simp [Tel.set, Tel.load, telWF]
  | cons r rest =>
    rw [rngChain_cons] at h
    simp only [Tel.set, Tel.load, telWF]
    exact ⟨trivial, h.1, h.2.1, le_refl _, h.2.2⟩

theorem telWF_increment {b : Int} {t : Tel} (h : telWF b t) :
    telWF (t.highKey + 1) t.increment := by
  cases hT : t.trans with
  | nil =>
    simp only [telWF, hT] at h
    simp [Tel.increment, Tel.load, telWF, h]
  | cons r rest =>
    simp only [telWF, hT] at h
    obtain ⟨hnx, hb, hlh, hhr, hch⟩ := h
    cases hR : rest with
    | nil =>
      simp [Tel.increment, Tel.load, telWF, hnx, hR]
    | cons r2 rest2 =>
      rw [hR, rngChain_cons] at hch
      obtain ⟨g1, g2, g3⟩ := hch
      simp only [Tel.increment, Tel.load, hnx, hR, telWF]
      exact ⟨trivial, by omega, g2, le_refl _, g3⟩

theorem telWF_mono {b b' : Int} {t : Tel} (h : telWF b t) (hb : b' ≤ t.lowKey) :
    telWF b' t := by
  cases hT : t.trans with
  | nil =>
    simpa [telWF, hT] using h
  | cons r rest =>
    simp only [telWF, hT] at h ⊢
    exact ⟨h.1, hb, h.2.2⟩

/-- A break event is a notification, not a segment. -/
def isSegEv (e : Ev) : Bool :=
  match e.us with
  | .BreakS1 | .BreakS2 => false
  | _ => true

/-- The segments of an event stream: the `RangeInS1`, `RangeInS2` and
`RangeOverlap` events. -/
def segs (evs : List Ev) : List Ev :=
  evs.filter isSegEv

/-- The s1-side transition identities mentioned by an event stream. -/
def ids1 (evs : List Ev) : List Nat :=
  evs.filterMap Ev.id1

/-- The s2-side transition identities mentioned by an event stream. -/
def ids2 (evs : List Ev) : List Nat :=
  evs.filterMap Ev.id2

/-- A chained segment stream above a bound: each segment is non-empty,
starts at or above the bound, and the bound advances past each segment. -/
def Chained (b : Int) : List Ev → Prop
  | [] => True
  | e :: rest => b ≤ e.low ∧ e.low ≤ e.high ∧ Chained (e.high + 1) rest

theorem chained_lb {b : Int} {l : List Ev} (h : Chained b l) :
    ∀ e ∈ l, b ≤ e.low ∧ e.low ≤ e.high := by
  induction l generalizing b with
  | nil => intro e he; cases he
  | cons x rest ih =>
    obtain ⟨hb, hlh, hch⟩ := h
    intro e he
    rcases List.mem_cons.mp he with he | he
    · subst he; exact ⟨hb, hlh⟩
    · have := ih hch e he
      exact ⟨by omega, this.2⟩

theorem chained_pairwise {b : Int} {l : List Ev} (h : Chained b l) :
    l.Pairwise (fun e e' => e.high < e'.low ∧ e.low < e'.low) := by
  induction l generalizing b with
  | nil => exact List.Pairwise.nil
  | cons x rest ih =>
    obtain ⟨hb, hlh, hch⟩ := h
    refine List.Pairwise.cons ?_ (ih hch)
    intro e he
    have := chained_lb hch e he
    exact ⟨by omega, by omega⟩

/-- Invariant at a stick-out state of side 1 (`S1SticksOutBreak` /
`S1SticksOut`): `s1Tel` holds the broken-off prefix, the bottom slots hold
the remainder `[bottomLow, bottomHigh]` on the same transition, and the
remainder starts exactly where the s2 head starts. -/
def Stick1 (b : Int) (st : RangePairIter) : Prop :=
  st.s1Tel.trans ≠ [] ∧ st.s2Tel.trans ≠ []
    ∧ st.bottomTrans1 = st.s1Tel.trans
    ∧ b ≤ st.s1Tel.lowKey ∧ st.s1Tel.lowKey ≤ st.s1Tel.highKey
    ∧ st.bottomLow = st.s1Tel.highKey + 1
    ∧ st.bottomLow ≤ st.bottomHigh
    ∧ st.s2Tel.lowKey = st.bottomLow
    ∧ telWF b st.s2Tel
    ∧ (match st.s1Tel.trans with
       | [] => True
       | r :: rest =>
         st.s1Tel.next = rest ∧ st.bottomHigh ≤ r.high ∧ rngChain (r.high + 1) rest = true)

/-- Invariant at a stick-out state of side 2 (`S2SticksOutBreak` /
`S2SticksOut`), the mirror image of `Stick1`. -/
def Stick2 (b : Int) (st : RangePairIter) : Prop :=
  st.s1Tel.trans ≠ [] ∧ st.s2Tel.trans ≠ []
    ∧ st.bottomTrans2 = st.s2Tel.trans
    ∧ b ≤ st.s2Tel.lowKey ∧ st.s2Tel.lowKey ≤ st.s2Tel.highKey
    ∧ st.bottomLow = st.s2Tel.highKey + 1
    ∧ st.bottomLow ≤ st.bottomHigh
    ∧ st.s1Tel.lowKey = st.bottomLow
    ∧ telWF b st.s1Tel
    ∧ (match st.s2Tel.trans with
       | [] => True
       | r :: rest =>
         st.s2Tel.next = rest ∧ st.bottomHigh ≤ r.high ∧ rngChain (r.high + 1) rest = true)

/-- Invariant at a drags-behind state of side 2 (`S2DragsBehindBreak` /
`S2DragsBehind`): `s2Tel` is trimmed to exact overlap with the s1 head and
the bottom slots hold the s2 remainder on the same transition. -/
def Drag2 (b : Int) (st : RangePairIter) : Prop :=
  st.s1Tel.trans ≠ [] ∧ st.s2Tel.trans ≠ []
    ∧ st.bottomTrans2 = st.s2Tel.trans
    ∧ telWF b st.s1Tel
    ∧ st.s2Tel.lowKey = st.s1Tel.lowKey
    ∧ st.s2Tel.highKey = st.s1Tel.highKey
    ∧ st.bottomLow = st.s1Tel.highKey + 1
    ∧ st.bottomLow ≤ st.bottomHigh
    ∧ (match st.s2Tel.trans with
       | [] => True
       | r :: rest =>
         st.s2Tel.next = rest ∧ st.bottomHigh ≤ r.high ∧ rngChain (r.high + 1) rest = true)

/-- Invariant at a drags-behind state of side 1 (`S1DragsBehindBreak` /
`S1DragsBehind`), the mirror image of `Drag2`. -/
def Drag1 (b : Int) (st : RangePairIter) : Prop :=
  st.s1Tel.trans ≠ [] ∧ st.s2Tel.trans ≠ []
    ∧ st.bottomTrans1 = st.s1Tel.trans
    ∧ telWF b st.s2Tel
    ∧ st.s1Tel.lowKey = st.s2Tel.lowKey
    ∧ st.s1Tel.highKey = st.s2Tel.highKey
    ∧ st.bottomLow = st.s1Tel.highKey + 1
    ∧ st.bottomLow ≤ st.bottomHigh
    ∧ (match st.s1Tel.trans with
       | [] => True
       | r :: rest =>
         st.s1Tel.next = rest ∧ st.bottomHigh ≤ r.high ∧ rngChain (r.high + 1) rest = true)

/-- Invariant of a paused (post-`findNext`) iterator state relative to a
lower bound `b`: whatever segment is pending and whatever segments follow
all lie at or above `b`, and the working data is well formed. `Begin` is
impossible for a paused state; at `End` both lists are exhausted. -/
def Inv (b : Int) (st : RangePairIter) : Prop :=
  match st.itState with
  | .Begin => False
  | .End => st.s1Tel.trans = [] ∧ st.s2Tel.trans = []
  | .ConsumeS1Range =>
    st.userState = .RangeInS1 ∧ st.s1Tel.trans ≠ [] ∧ st.s2Tel.trans = []
      ∧ telWF b st.s1Tel
  | .ConsumeS2Range =>
    st.userState = .RangeInS2 ∧ st.s2Tel.trans ≠ [] ∧ st.s1Tel.trans = []
      ∧ telWF b st.s2Tel
  | .OnlyInS1Range =>
    st.userState = .RangeInS1 ∧ st.s1Tel.trans ≠ [] ∧ st.s2Tel.trans ≠ []
      ∧ telWF b st.s1Tel ∧ telWF b st.s2Tel ∧ st.s1Tel.highKey < st.s2Tel.lowKey
  | .OnlyInS2Range =>
    st.userState = .RangeInS2 ∧ st.s1Tel.trans ≠ [] ∧ st.s2Tel.trans ≠ []
      ∧ telWF b st.s1Tel ∧ telWF b st.s2Tel ∧ st.s2Tel.highKey < st.s1Tel.lowKey
  | .S1SticksOutBreak => st.userState = .BreakS1 ∧ Stick1 b st
  | .S1SticksOut => st.userState = .RangeInS1 ∧ Stick1 b st
  | .S2SticksOutBreak => st.userState = .BreakS2 ∧ Stick2 b st
  | .S2SticksOut => st.userState = .RangeInS2 ∧ Stick2 b st
  | .S2DragsBehindBreak => st.userState = .BreakS2 ∧ Drag2 b st
  | .S2DragsBehind => st.userState = .RangeOverlap ∧ Drag2 b st
  | .S1DragsBehindBreak => st.userState = .BreakS1 ∧ Drag1 b st
  | .S1DragsBehind => st.userState = .RangeOverlap ∧ Drag1 b st
  | .ExactOverlap =>
    st.userState = .RangeOverlap ∧ st.s1Tel.trans ≠ [] ∧ st.s2Tel.trans ≠ []
      ∧ telWF b st.s1Tel ∧ telWF b st.s2Tel
      ∧ st.s1Tel.lowKey = st.s2Tel.lowKey ∧ st.s1Tel.highKey = st.s2Tel.highKey

/-- Entering the scan loop with two well-formed slots establishes the
invariant of whatever state the loop body pauses in. -/
theorem inv_scan {b : Int} {st : RangePairIter}
    (h1 : telWF b st.s1Tel) (h2 : telWF b st.s2Tel) :
    Inv b (RangePairIter.scan st) := by
  cases hA : st.s1Tel.trans with
  | nil =>
    cases hB : st.s2Tel.trans with
    | nil =>
      have hs : RangePairIter.scan st = { st with itState := .End } := by
        simp only [RangePairIter.scan, hA, hB]
      rw [hs]
      exact ⟨hA, hB⟩
    | cons b2 t2 =>
      have hs : RangePairIter.scan st =
          { st with itState := .ConsumeS2Range, userState := .RangeInS2 } := by
        simp only [RangePairIter.scan, hA, hB]
      rw [hs]
      exact ⟨rfl, by show st.s2Tel.trans ≠ []; simp [hB], hA, h2⟩
  | cons a t1 =>
    have h1' := h1
    simp only [telWF, hA] at h1'
    obtain ⟨hnx1, hb1, hlh1, hhr1, hch1⟩ := h1'
    cases hB : st.s2Tel.trans with
    | nil =>
      have hs : RangePairIter.scan st =
          { st with itState := .ConsumeS1Range, userState := .RangeInS1 } := by
        simp only [RangePairIter.scan, hA, hB]
      rw [hs]
      exact ⟨rfl, by show st.s1Tel.trans ≠ []; simp [hA], hB, h1⟩
    | cons b2 t2 =>
      have h2' := h2
      simp only [telWF, hB] at h2'
      obtain ⟨hnx2, hb2, hlh2, hhr2, hch2⟩ := h2'
      by_cases c1 : st.s1Tel.highKey < st.s2Tel.lowKey
      · have hs : RangePairIter.scan st =
            { st with itState := .OnlyInS1Range, userState := .RangeInS1 } := by
          simp only [RangePairIter.scan, hA, hB, if_pos c1]
        rw [hs]
        exact ⟨rfl, by show st.s1Tel.trans ≠ []; simp [hA],
          by show st.s2Tel.trans ≠ []; simp [hB], h1, h2, c1⟩
      · by_cases c2 : st.s2Tel.highKey < st.s1Tel.lowKey
        · have hs : RangePairIter.scan st =
              { st with itState := .OnlyInS2Range, userState := .RangeInS2 } := by
            simp only [RangePairIter.scan, hA, hB, if_neg c1, if_pos c2]
          rw [hs]
          exact ⟨rfl, by show st.s1Tel.trans ≠ []; simp [hA],
            by show st.s2Tel.trans ≠ []; simp [hB], h1, h2, c2⟩
        · by_cases c3 : st.s1Tel.lowKey < st.s2Tel.lowKey
          · have hs : RangePairIter.scan st =
                { st with
                  bottomLow := st.s2Tel.lowKey
                  bottomHigh := st.s1Tel.highKey
                  s1Tel := { st.s1Tel with highKey := st.s2Tel.lowKey - 1 }
                  bottomTrans1 := st.s1Tel.trans
                  itState := .S1SticksOutBreak, userState := .BreakS1 } := by
              simp only [RangePairIter.scan, hA, hB, if_neg c1, if_neg c2, if_pos c3]
            rw [hs]
            refine ⟨rfl, by show st.s1Tel.trans ≠ []; simp [hA],
              by show st.s2Tel.trans ≠ []; simp [hB], rfl, hb1,
              by show st.s1Tel.lowKey ≤ st.s2Tel.lowKey - 1; omega,
              by show st.s2Tel.lowKey = st.s2Tel.lowKey - 1 + 1; omega,
              by show st.s2Tel.lowKey ≤ st.s1Tel.highKey; omega,
              rfl, h2, ?_⟩
            show (match st.s1Tel.trans with
              | [] => True
              | r :: rest =>
                st.s1Tel.next = rest ∧ st.s1Tel.highKey ≤ r.high
                  ∧ rngChain (r.high + 1) rest = true : Prop)
            simp only [hA]
            exact ⟨hnx1, hhr1, hch1⟩
          · by_cases c4 : st.s2Tel.lowKey < st.s1Tel.lowKey
            · have hs : RangePairIter.scan st =
                  { st with
                    bottomLow := st.s1Tel.lowKey
                    bottomHigh := st.s2Tel.highKey
                    s2Tel := { st.s2Tel with highKey := st.s1Tel.lowKey - 1 }
                    bottomTrans2 := st.s2Tel.trans
                    itState := .S2SticksOutBreak, userState := .BreakS2 } := by
                simp only [RangePairIter.scan, hA, hB, if_neg c1, if_neg c2, if_neg c3,
                  if_pos c4]
              rw [hs]
              refine ⟨rfl, by show st.s1Tel.trans ≠ []; simp [hA],
                by show st.s2Tel.trans ≠ []; simp [hB], rfl, hb2,
                by show st.s2Tel.lowKey ≤ st.s1Tel.lowKey - 1; omega,
                by show st.s1Tel.lowKey = st.s1Tel.lowKey - 1 + 1; omega,
                by show st.s1Tel.lowKey ≤ st.s2Tel.highKey; omega,
                rfl, h1, ?_⟩
              show (match st.s2Tel.trans with
                | [] => True
                | r :: rest =>
                  st.s2Tel.next = rest ∧ st.s2Tel.highKey ≤ r.high
                    ∧ rngChain (r.high + 1) rest = true : Prop)
              simp only [hB]
              exact ⟨hnx2, hhr2, hch2⟩
            · by_cases c5 : st.s1Tel.highKey < st.s2Tel.highKey
              · have hs : RangePairIter.scan st =
                    { st with
                      bottomLow := st.s1Tel.highKey + 1
                      bottomHigh := st.s2Tel.highKey
                      s2Tel := { st.s2Tel with highKey := st.s1Tel.highKey }
                      bottomTrans2 := st.s2Tel.trans
                      itState := .S2DragsBehindBreak, userState := .BreakS2 } := by
                  simp only [RangePairIter.scan, hA, hB, if_neg c1, if_neg c2, if_neg c3,
                    if_neg c4, if_pos c5]
                rw [hs]
                refine ⟨rfl, by show st.s1Tel.trans ≠ []; simp [hA],
                  by show st.s2Tel.trans ≠ []; simp [hB], rfl, h1,
                  by show st.s2Tel.lowKey = st.s1Tel.lowKey; omega,
                  rfl, rfl,
                  by show st.s1Tel.highKey + 1 ≤ st.s2Tel.highKey; omega, ?_⟩
                show (match st.s2Tel.trans with
                  | [] => True
                  | r :: rest =>
                    st.s2Tel.next = rest ∧ st.s2Tel.highKey ≤ r.high
                      ∧ rngChain (r.high + 1) rest = true : Prop)
                simp only [hB]
                exact ⟨hnx2, hhr2, hch2⟩
              · by_cases c6 : st.s2Tel.highKey < st.s1Tel.highKey
                · have hs : RangePairIter.scan st =
                      { st with
                        bottomLow := st.s2Tel.highKey + 1
                        bottomHigh := st.s1Tel.highKey
                        s1Tel := { st.s1Tel with highKey := st.s2Tel.highKey }
                        bottomTrans1 := st.s1Tel.trans
                        itState := .S1DragsBehindBreak, userState := .BreakS1 } := by
                    simp only [RangePairIter.scan, hA, hB, if_neg c1, if_neg c2,
                      if_neg c3, if_neg c4, if_neg c5, if_pos c6]
                  rw [hs]
                  refine ⟨rfl, by show st.s1Tel.trans ≠ []; simp [hA],
                    by show st.s2Tel.trans ≠ []; simp [hB], rfl, h2,
                    by show st.s1Tel.lowKey = st.s2Tel.lowKey; omega,
                    rfl, rfl,
                    by show st.s2Tel.highKey + 1 ≤ st.s1Tel.highKey; omega, ?_⟩
                  show (match st.s1Tel.trans with
                    | [] => True
                    | r :: rest =>
                      st.s1Tel.next = rest ∧ st.s1Tel.highKey ≤ r.high
                        ∧ rngChain (r.high + 1) rest = true : Prop)
                  simp only [hA]
                  exact ⟨hnx1, hhr1, hch1⟩
                · have hs : RangePairIter.scan st =
                      { st with itState := .ExactOverlap, userState := .RangeOverlap } := by
                    simp only [RangePairIter.scan, hA, hB, if_neg c1, if_neg c2,
                      if_neg c3, if_neg c4, if_neg c5, if_neg c6]
                  rw [hs]
                  exact ⟨rfl, by show st.s1Tel.trans ≠ []; simp [hA],
                    by show st.s2Tel.trans ≠ []; simp [hB], h1, h2,
                    by show st.s1Tel.lowKey = st.s2Tel.lowKey; omega,
                    by show st.s1Tel.highKey = st.s2Tel.highKey; omega⟩

/-- The bound below which nothing further is emitted once the pending event
of the paused state has been delivered: one past the pending segment's high
key at a segment-emitting state, unchanged at a break state or at the end. -/
def pendBound (b : Int) (st : RangePairIter) : Int :=
  match st.itState with
  | .ConsumeS1Range => st.s1Tel.highKey + 1
  | .OnlyInS1Range => st.s1Tel.highKey + 1
  | .S1SticksOut => st.s1Tel.highKey + 1
  | .ConsumeS2Range => st.s2Tel.highKey + 1
  | .OnlyInS2Range => st.s2Tel.highKey + 1
  | .S2SticksOut => st.s2Tel.highKey + 1
  | .S2DragsBehind => st.s1Tel.highKey + 1
  | .S1DragsBehind => st.s1Tel.highKey + 1
  | .ExactOverlap => st.s1Tel.highKey + 1
  | _ => b

/-- One resumption preserves the invariant, advancing the bound past the
segment just delivered. -/
theorem inv_findNext {b : Int} {st : RangePairIter} (h : Inv b st) :
    Inv (pendBound b st) (RangePairIter.findNext st) := by
  cases hS : st.itState
  case Begin =>
    simp only [Inv, hS] at h
  case End =>
    simp only [Inv, hS] at h
    have hf : RangePairIter.findNext st = st := by
      simp only [RangePairIter.findNext, hS]
    have hp : pendBound b st = b := by
      simp only [pendBound, hS]
    rw [hf, hp]
    simp only [Inv, hS]
    exact h
  case ConsumeS1Range =>
    simp only [Inv, hS] at h
    obtain ⟨hus, hne, hs2, hwf⟩ := h
    have hp : pendBound b st = st.s1Tel.highKey + 1 := by
      simp only [pendBound, hS]
    rw [hp]
    by_cases he : (st.s1Tel.increment).trans = []
    · have hf : RangePairIter.findNext st =
          { st with s1Tel := st.s1Tel.increment, itState := .End } := by
        simp only [RangePairIter.findNext, hS]
        rw [if_pos (List.isEmpty_iff.mpr he)]
      rw [hf]
      exact ⟨he, hs2⟩
    · have hf : RangePairIter.findNext st =
          { st with
            s1Tel := st.s1Tel.increment
            itState := .ConsumeS1Range
            userState := .RangeInS1 } := by
        simp only [RangePairIter.findNext, hS]
        rw [if_neg (by simp [List.isEmpty_iff, he])]
      rw [hf]
      exact ⟨rfl, he, hs2, telWF_increment hwf⟩
  case ConsumeS2Range =>
    simp only [Inv, hS] at h
    obtain ⟨hus, hne, hs1, hwf⟩ := h
    have hp : pendBound b st = st.s2Tel.highKey + 1 := by
      simp only [pendBound, hS]
    rw [hp]
    by_cases he : (st.s2Tel.increment).trans = []
    · have hf : RangePairIter.findNext st =
          { st with s2Tel := st.s2Tel.increment, itState := .End } := by
        simp only [RangePairIter.findNext, hS]
        rw [if_pos (List.isEmpty_iff.mpr he)]
      rw [hf]
      exact ⟨hs1, he⟩
    · have hf : RangePairIter.findNext st =
          { st with
            s2Tel := st.s2Tel.increment
            itState := .ConsumeS2Range
            userState := .RangeInS2 } := by
        simp only [RangePairIter.findNext, hS]
        rw [if_neg (by simp [List.isEmpty_iff, he])]
      rw [hf]
      exact ⟨rfl, he, hs1, telWF_increment hwf⟩
  case OnlyInS1Range =>
    simp only [Inv, hS] at h
    obtain ⟨hus, hne1, hne2, hwf1, hwf2, hlt⟩ := h
    have hf : RangePairIter.findNext st =
        RangePairIter.scan { st with s1Tel := st.s1Tel.increment } := by
      simp only [RangePairIter.findNext, hS]
    have hp : pendBound b st = st.s1Tel.highKey + 1 := by
      simp only [pendBound, hS]
    rw [hf, hp]
    apply inv_scan
    · show telWF (st.s1Tel.highKey + 1) st.s1Tel.increment
      exact telWF_increment hwf1
    · show telWF (st.s1Tel.highKey + 1) st.s2Tel
      exact telWF_mono hwf2 (by omega)
  case OnlyInS2Range =>
    simp only [Inv, hS] at h
    obtain ⟨hus, hne1, hne2, hwf1, hwf2, hlt⟩ := h
    have hf : RangePairIter.findNext st =
        RangePairIter.scan { st with s2Tel := st.s2Tel.increment } := by
      simp only [RangePairIter.findNext, hS]
    have hp : pendBound b st = st.s2Tel.highKey + 1 := by
      simp only [pendBound, hS]
    rw [hf, hp]
    apply inv_scan
    · show telWF (st.s2Tel.highKey + 1) st.s1Tel
      exact telWF_mono hwf1 (by omega)
    · show telWF (st.s2Tel.highKey + 1) st.s2Tel.increment
      exact telWF_increment hwf2
  case S1SticksOutBreak =>
    simp only [Inv, hS] at h
    obtain ⟨hus, hstick⟩ := h
    have hf : RangePairIter.findNext st =
        { st with itState := .S1SticksOut, userState := .RangeInS1 } := by
      simp only [RangePairIter.findNext, hS]
    have hp : pendBound b st = b := by
      simp only [pendBound, hS]
    rw [hf, hp]
    exact ⟨rfl, hstick⟩
  case S1SticksOut =>
    simp only [Inv, hS] at h
    obtain ⟨hus, hne1, hne2, hbtr, hlb, hlh, hbl, hblh, hs2l, hwf2, hmatch⟩ := h
    obtain ⟨r, rest, hcons⟩ := List.exists_cons_of_ne_nil hne1
    simp only [hcons] at hmatch
    obtain ⟨hnx, hbh, hch⟩ := hmatch
    have hf : RangePairIter.findNext st =
        RangePairIter.scan { st with s1Tel :=
          { st.s1Tel with
            lowKey := st.bottomLow
            highKey := st.bottomHigh
            trans := st.bottomTrans1 } } := by
      simp only [RangePairIter.findNext, hS]
    have hp : pendBound b st = st.s1Tel.highKey + 1 := by
      simp only [pendBound, hS]
    rw [hf, hp]
    apply inv_scan
    · show telWF (st.s1Tel.highKey + 1)
        { st.s1Tel with
          lowKey := st.bottomLow
          highKey := st.bottomHigh
          trans := st.bottomTrans1 }
      simp only [telWF, hbtr, hcons]
      exact ⟨hnx, by omega, hblh, hbh, hch⟩
    · show telWF (st.s1Tel.highKey + 1) st.s2Tel
      exact telWF_mono hwf2 (by omega)
  case S2SticksOutBreak =>
    simp only [Inv, hS] at h
    obtain ⟨hus, hstick⟩ := h
    have hf : RangePairIter.findNext st =
        { st with itState := .S2SticksOut, userState := .RangeInS2 } := by
      simp only [RangePairIter.findNext, hS]
    have hp : pendBound b st = b := by
      simp only [pendBound, hS]
    rw [hf, hp]
    exact ⟨rfl, hstick⟩
  case S2SticksOut =>
    simp only [Inv, hS] at h
    obtain ⟨hus, hne1, hne2, hbtr, hlb, hlh, hbl, hblh, hs1l, hwf1, hmatch⟩ := h
    obtain ⟨r, rest, hcons⟩ := List.exists_cons_of_ne_nil hne2
    simp only [hcons] at hmatch
    obtain ⟨hnx, hbh, hch⟩ := hmatch
    have hf : RangePairIter.findNext st =
        RangePairIter.scan { st with s2Tel :=
          { st.s2Tel with
            lowKey := st.bottomLow
            highKey := st.bottomHigh
            trans := st.bottomTrans2 } } := by
      simp only [RangePairIter.findNext, hS]
    have hp : pendBound b st = st.s2Tel.highKey + 1 := by
      simp only [pendBound, hS]
    rw [hf, hp]
    apply inv_scan
    · show telWF (st.s2Tel.highKey + 1) st.s1Tel
      exact telWF_mono hwf1 (by omega)
    · show telWF (st.s2Tel.highKey + 1)
        { st.s2Tel with
          lowKey := st.bottomLow
          highKey := st.bottomHigh
          trans := st.bottomTrans2 }
      simp only [telWF, hbtr, hcons]
      exact ⟨hnx, by omega, hblh, hbh, hch⟩
  case S2DragsBehindBreak =>
    simp only [Inv, hS] at h
    obtain ⟨hus, hdrag⟩ := h
    have hf : RangePairIter.findNext st =
        { st with itState := .S2DragsBehind, userState := .RangeOverlap } := by
      simp only [RangePairIter.findNext, hS]
    have hp : pendBound b st = b := by
      simp only [pendBound, hS]
    rw [hf, hp]
    exact ⟨rfl, hdrag⟩
  case S2DragsBehind =>
    simp only [Inv, hS] at h
    obtain ⟨hus, hne1, hne2, hbtr, hwf1, hlo, hhi, hbl, hblh, hmatch⟩ := h
    obtain ⟨r, rest, hcons⟩ := List.exists_cons_of_ne_nil hne2
    simp only [hcons] at hmatch
    obtain ⟨hnx, hbh, hch⟩ := hmatch
    have hf : RangePairIter.findNext st =
        RangePairIter.scan { st with
          s2Tel := { st.s2Tel with
            lowKey := st.bottomLow
            highKey := st.bottomHigh
            trans := st.bottomTrans2 }
          s1Tel := st.s1Tel.increment } := by
      simp only [RangePairIter.findNext, hS]
    have hp : pendBound b st = st.s1Tel.highKey + 1 := by
      simp only [pendBound, hS]
    rw [hf, hp]
    apply inv_scan
    · show telWF (st.s1Tel.highKey + 1) st.s1Tel.increment
      exact telWF_increment hwf1
    · show telWF (st.s1Tel.highKey + 1)
        { st.s2Tel with
          lowKey := st.bottomLow
          highKey := st.bottomHigh
          trans := st.bottomTrans2 }
      simp only [telWF, hbtr, hcons]
      exact ⟨hnx, by omega, hblh, hbh, hch⟩
  case S1DragsBehindBreak =>
    simp only [Inv, hS] at h
    obtain ⟨hus, hdrag⟩ := h
    have hf : RangePairIter.findNext st =
        { st with itState := .S1DragsBehind, userState := .RangeOverlap } := by
      simp only [RangePairIter.findNext, hS]
    have hp : pendBound b st = b := by
      simp only [pendBound, hS]
    rw [hf, hp]
    exact ⟨rfl, hdrag⟩
  case S1DragsBehind =>
    simp only [Inv, hS] at h
    obtain ⟨hus, hne1, hne2, hbtr, hwf2, hlo, hhi, hbl, hblh, hmatch⟩ := h
    obtain ⟨r, rest, hcons⟩ := List.exists_cons_of_ne_nil hne1
    simp only [hcons] at hmatch
    obtain ⟨hnx, hbh, hch⟩ := hmatch
    have hf : RangePairIter.findNext st =
        RangePairIter.scan { st with
          s1Tel := { st.s1Tel with
            lowKey := st.bottomLow
            highKey := st.bottomHigh
            trans := st.bottomTrans1 }
          s2Tel := st.s2Tel.increment } := by
      simp only [RangePairIter.findNext, hS]
    have hp : pendBound b st = st.s1Tel.highKey + 1 := by
      simp only [pendBound, hS]
    rw [hf, hp]
    apply inv_scan
    · show telWF (st.s1Tel.highKey + 1)
        { st.s1Tel with
          lowKey := st.bottomLow
          highKey := st.bottomHigh
          trans := st.bottomTrans1 }
      simp only [telWF, hbtr, hcons]
      exact ⟨hnx, by omega, hblh, hbh, hch⟩
    · show telWF (st.s1Tel.highKey + 1) st.s2Tel.increment
      rw [hhi]
      exact telWF_increment hwf2
  case ExactOverlap =>
    simp only [Inv, hS] at h
    obtain ⟨hus, hne1, hne2, hwf1, hwf2, hlo, hhi⟩ := h
    have hf : RangePairIter.findNext st =
        RangePairIter.scan
          { st with s1Tel := st.s1Tel.increment, s2Tel := st.s2Tel.increment } := by
      simp only [RangePairIter.findNext, hS]
    have hp : pendBound b st = st.s1Tel.highKey + 1 := by
      simp only [pendBound, hS]
    rw [hf, hp]
    apply inv_scan
    · show telWF (st.s1Tel.highKey + 1) st.s1Tel.increment
      exact telWF_increment hwf1
    · show telWF (st.s1Tel.highKey + 1) st.s2Tel.increment
      rw [hhi]
      exact telWF_increment hwf2

theorem telWF_head {b : Int} {t : Tel} (h : telWF b t) (hne : t.trans ≠ []) :
    b ≤ t.lowKey ∧ t.lowKey ≤ t.highKey := by
  obtain ⟨r, rest, hcons⟩ := List.exists_cons_of_ne_nil hne
  simp only [telWF, hcons] at h
  exact ⟨h.2.1, h.2.2.1⟩

theorem segs_cons_seg {e : Ev} {l : List Ev} (h : isSegEv e = true) :
    segs (e :: l) = e :: segs l := by
  simp [segs, h]

theorem segs_cons_break {e : Ev} {l : List Ev} (h : isSegEv e = false) :
    segs (e :: l) = segs l := by
  simp [segs, h]

/-- The segment stream delivered from any invariant-satisfying paused state
is chained above the state's bound. -/
theorem inv_chained {b : Int} {st : RangePairIter} (h : Inv b st) (fuel : Nat) :
    Chained b (segs (RangePairIter.runAux fuel st)) := by
  induction fuel generalizing b st with
  | zero =>
    simp [RangePairIter.runAux, segs, Chained]
  | succ n ih =>
    by_cases hEnd : st.itState = RangePairIter.IterState.End
    · simp [RangePairIter.runAux, hEnd, segs, Chained]
    · have hrun : RangePairIter.runAux (n + 1) st
          = RangePairIter.evOf st :: RangePairIter.runAux n (RangePairIter.findNext st) := by
        simp [RangePairIter.runAux, hEnd]
      rw [hrun]
      have hstep := inv_findNext h
      cases hS : st.itState with
      | Begin =>
        simp only [Inv, hS] at h
      | End =>
        exact absurd hS hEnd
      | ConsumeS1Range =>
        simp only [Inv, hS] at h
        obtain ⟨hus, hne, hs2, hwf⟩ := h
        obtain ⟨hb1, hlh1⟩ := telWF_head hwf hne
        have hev : RangePairIter.evOf st =
            ⟨.RangeInS1, st.s1Tel.lowKey, st.s1Tel.highKey,
              st.s1Tel.trans.head?.map Rng.id, none⟩ := by
          simp only [RangePairIter.evOf, hus]
        have hsg : isSegEv (RangePairIter.evOf st) = true := by rw [hev]; rfl
        rw [segs_cons_seg hsg, hev]
        refine ⟨hb1, hlh1, ?_⟩
        have hp : pendBound b st = st.s1Tel.highKey + 1 := by
          simp only [pendBound, hS]
        rw [hp] at hstep
        exact ih hstep
      | ConsumeS2Range =>
        simp only [Inv, hS] at h
        obtain ⟨hus, hne, hs1, hwf⟩ := h
        obtain ⟨hb2, hlh2⟩ := telWF_head hwf hne
        have hev : RangePairIter.evOf st =
            ⟨.RangeInS2, st.s2Tel.lowKey, st.s2Tel.highKey, none,
              st.s2Tel.trans.head?.map Rng.id⟩ := by
          simp only [RangePairIter.evOf, hus]
        have hsg : isSegEv (RangePairIter.evOf st) = true := by rw [hev]; rfl
        rw [segs_cons_seg hsg, hev]
        refine ⟨hb2, hlh2, ?_⟩
        have hp : pendBound b st = st.s2Tel.highKey + 1 := by
          simp only [pendBound, hS]
        rw [hp] at hstep
        exact ih hstep
      | OnlyInS1Range =>
        simp only [Inv, hS] at h
        obtain ⟨hus, hne1, hne2, hwf1, hwf2, hlt⟩ := h
        obtain ⟨hb1, hlh1⟩ := telWF_head hwf1 hne1
        have hev : RangePairIter.evOf st =
            ⟨.RangeInS1, st.s1Tel.lowKey, st.s1Tel.highKey,
              st.s1Tel.trans.head?.map Rng.id, none⟩ := by
          simp only [RangePairIter.evOf, hus]
        have hsg : isSegEv (RangePairIter.evOf st) = true := by rw [hev]; rfl
        rw [segs_cons_seg hsg, hev]
        refine ⟨hb1, hlh1, ?_⟩
        have hp : pendBound b st = st.s1Tel.highKey + 1 := by
          simp only [pendBound, hS]
        rw [hp] at hstep
        exact ih hstep
      | OnlyInS2Range =>
        simp only [Inv, hS] at h
        obtain ⟨hus, hne1, hne2, hwf1, hwf2, hlt⟩ := h
        obtain ⟨hb2, hlh2⟩ := telWF_head hwf2 hne2
        have hev : RangePairIter.evOf st =
            ⟨.RangeInS2, st.s2Tel.lowKey, st.s2Tel.highKey, none,
              st.s2Tel.trans.head?.map Rng.id⟩ := by
          simp only [RangePairIter.evOf, hus]
        have hsg : isSegEv (RangePairIter.evOf st) = true := by rw [hev]; rfl
        rw [segs_cons_seg hsg, hev]
        refine ⟨hb2, hlh2, ?_⟩
        have hp : pendBound b st = st.s2Tel.highKey + 1 := by
          simp only [pendBound, hS]
        rw [hp] at hstep
        exact ih hstep
      | S1SticksOutBreak =>
        simp only [Inv, hS] at h
        obtain ⟨hus, hstick⟩ := h
        have hev : RangePairIter.evOf st =
            ⟨.BreakS1, st.s1Tel.lowKey, st.s1Tel.highKey,
              st.s1Tel.trans.head?.map Rng.id, none⟩ := by
          simp only [RangePairIter.evOf, hus]
        have hsg : isSegEv (RangePairIter.evOf st) = false := by rw [hev]; rfl
        rw [segs_cons_break hsg]
        have hp : pendBound b st = b := by
          simp only [pendBound, hS]
        rw [hp] at hstep
        exact ih hstep
      | S1SticksOut =>
        simp only [Inv, hS] at h
        obtain ⟨hus, hne1, hne2, hbtr, hlb, hlh, hbl, hblh, hs2l, hwf2, hmatch⟩ := h
        have hev : RangePairIter.evOf st =
            ⟨.RangeInS1, st.s1Tel.lowKey, st.s1Tel.highKey,
              st.s1Tel.trans.head?.map Rng.id, none⟩ := by
          simp only [RangePairIter.evOf, hus]
        have hsg : isSegEv (RangePairIter.evOf st) = true := by rw [hev]; rfl
        rw [segs_cons_seg hsg, hev]
        refine ⟨hlb, hlh, ?_⟩
        have hp : pendBound b st = st.s1Tel.highKey + 1 := by
          simp only [pendBound, hS]
        rw [hp] at hstep
        exact ih hstep
      | S2SticksOutBreak =>
        simp only [Inv, hS] at h
        obtain ⟨hus, hstick⟩ := h
        have hev : RangePairIter.evOf st =
            ⟨.BreakS2, st.s2Tel.lowKey, st.s2Tel.highKey, none,
              st.s2Tel.trans.head?.map Rng.id⟩ := by
          simp only [RangePairIter.evOf, hus]
        have hsg : isSegEv (RangePairIter.evOf st) = false := by rw [hev]; rfl
        rw [segs_cons_break hsg]
        have hp : pendBound b st = b := by
          simp only [pendBound, hS]
        rw [hp] at hstep
        exact ih hstep
      | S2SticksOut =>
        simp only [Inv, hS] at h
        obtain ⟨hus, hne1, hne2, hbtr, hlb, hlh, hbl, hblh, hs1l, hwf1, hmatch⟩ := h
        have hev : RangePairIter.evOf st =
            ⟨.RangeInS2, st.s2Tel.lowKey, st.s2Tel.highKey, none,
              st.s2Tel.trans.head?.map Rng.id⟩ := by
          simp only [RangePairIter.evOf, hus]
        have hsg : isSegEv (RangePairIter.evOf st) = true := by rw [hev]; rfl
        rw [segs_cons_seg hsg, hev]
        refine ⟨hlb, hlh, ?_⟩
        have hp : pendBound b st = st.s2Tel.highKey + 1 := by
          simp only [pendBound, hS]
        rw [hp] at hstep
        exact ih hstep
      | S2DragsBehindBreak =>
        simp only [Inv, hS] at h
        obtain ⟨hus, hdrag⟩ := h
        have hev : RangePairIter.evOf st =
            ⟨.BreakS2, st.s2Tel.lowKey, st.s2Tel.highKey, none,
              st.s2Tel.trans.head?.map Rng.id⟩ := by
          simp only [RangePairIter.evOf, hus]
        have hsg : isSegEv (RangePairIter.evOf st) = false := by rw [hev]; rfl
        rw [segs_cons_break hsg]
        have hp : pendBound b st = b := by
          simp only [pendBound, hS]
        rw [hp] at hstep
        exact ih hstep
      | S2DragsBehind =>
        simp only [Inv, hS] at h
        obtain ⟨hus, hne1, hne2, hbtr, hwf1, hlo, hhi, hbl, hblh, hmatch⟩ := h
        obtain ⟨hb1, hlh1⟩ := telWF_head hwf1 hne1
        have hev : RangePairIter.evOf st =
            ⟨.RangeOverlap, st.s1Tel.lowKey, st.s1Tel.highKey,
              st.s1Tel.trans.head?.map Rng.id, st.s2Tel.trans.head?.map Rng.id⟩ := by
          simp only [RangePairIter.evOf, hus]
        have hsg : isSegEv (RangePairIter.evOf st) = true := by rw [hev]; rfl
        rw [segs_cons_seg hsg, hev]
        refine ⟨hb1, hlh1, ?_⟩
        have hp : pendBound b st = st.s1Tel.highKey + 1 := by
          simp only [pendBound, hS]
        rw [hp] at hstep
        exact ih hstep
      | S1DragsBehindBreak =>
        simp only [Inv, hS] at h
        obtain ⟨hus, hdrag⟩ := h
        have hev : RangePairIter.evOf st =
            ⟨.BreakS1, st.s1Tel.lowKey, st.s1Tel.highKey,
              st.s1Tel.trans.head?.map Rng.id, none⟩ := by
          simp only [RangePairIter.evOf, hus]
        have hsg : isSegEv (RangePairIter.evOf st) = false := by rw [hev]; rfl
        rw [segs_cons_break hsg]
        have hp : pendBound b st = b := by
          simp only [pendBound, hS]
        rw [hp] at hstep
        exact ih hstep
      | S1DragsBehind =>
        simp only [Inv, hS] at h
        obtain ⟨hus, hne1, hne2, hbtr, hwf2, hlo, hhi, hbl, hblh, hmatch⟩ := h
        obtain ⟨hb2, hlh2⟩ := telWF_head hwf2 hne2
        have hev : RangePairIter.evOf st =
            ⟨.RangeOverlap, st.s1Tel.lowKey, st.s1Tel.highKey,
              st.s1Tel.trans.head?.map Rng.id, st.s2Tel.trans.head?.map Rng.id⟩ := by
          simp only [RangePairIter.evOf, hus]
        have hsg : isSegEv (RangePairIter.evOf st) = true := by rw [hev]; rfl
        rw [segs_cons_seg hsg, hev]
        refine ⟨by show b ≤ st.s1Tel.lowKey; omega,
          by show st.s1Tel.lowKey ≤ st.s1Tel.highKey; omega, ?_⟩
        have hp : pendBound b st = st.s1Tel.highKey + 1 := by
          simp only [pendBound, hS]
        rw [hp] at hstep
        exact ih hstep
      | ExactOverlap =>
        simp only [Inv, hS] at h
        obtain ⟨hus, hne1, hne2, hwf1, hwf2, hlo, hhi⟩ := h
        obtain ⟨hb1, hlh1⟩ := telWF_head hwf1 hne1
        have hev : RangePairIter.evOf st =
            ⟨.RangeOverlap, st.s1Tel.lowKey, st.s1Tel.highKey,
              st.s1Tel.trans.head?.map Rng.id, st.s2Tel.trans.head?.map Rng.id⟩ := by
          simp only [RangePairIter.evOf, hus]
        have hsg : isSegEv (RangePairIter.evOf st) = true := by rw [hev]; rfl
        rw [segs_cons_seg hsg, hev]
        refine ⟨hb1, hlh1, ?_⟩
        have hp : pendBound b st = st.s1Tel.highKey + 1 := by
          simp only [pendBound, hS]
        rw [hp] at hstep
        exact ih hstep

/-- The freshly constructed iterator satisfies the invariant whenever the
two input lists are sorted, pairwise disjoint and above the bound. -/
theorem inv_init {b : Int} {l1 l2 : List Rng} (h1 : rngChain b l1 = true)
    (h2 : rngChain b l2 = true) : Inv b (RangePairIter.init l1 l2) := by
  show Inv b (RangePairIter.scan
    { list1 := l1, list2 := l2
      itState := .Begin, userState := .RangeInS1
      s1Tel := Tel.set { lowKey := 0, highKey := 0, trans := [], next := [] } l1
      s2Tel := Tel.set { lowKey := 0, highKey := 0, trans := [], next := [] } l2
      bottomLow := 0, bottomHigh := 0
      bottomTrans1 := [], bottomTrans2 := [] })
  apply inv_scan
  · show telWF b (Tel.set { lowKey := 0, highKey := 0, trans := [], next := [] } l1)
    exact telWF_set _ h1
  · show telWF b (Tel.set { lowKey := 0, highKey := 0, trans := [], next := [] } l2)
    exact telWF_set _ h2

/-- C1: for every two sorted, pairwise-disjoint range lists, the segments
`RangePairIter` emits under `RangeInS1`, `RangeInS2` and `RangeOverlap` are
pairwise non-overlapping and strictly increasing in `lowKey` across the
whole event stream. -/
theorem rangePairIter_segments_ordered (l1 l2 : List Rng) (b : Int) (fuel : Nat)
    (h1 : rngChain b l1 = true) (h2 : rngChain b l2 = true) :
    (segs (RangePairIter.run l1 l2 fuel)).Pairwise
      (fun e e' => e.high < e'.low ∧ e.low < e'.low) :=
  chained_pairwise (inv_chained (inv_init h1 h2) fuel)

/-- Witness for C1 at two concrete overlapping range lists. -/
theorem rangePairIter_segments_ordered_witness :
    (segs (RangePairIter.run [⟨0, 5, 0⟩] [⟨3, 9, 1⟩] 20)).Pairwise
      (fun e e' => e.high < e'.low ∧ e.low < e'.low) :=
  rangePairIter_segments_ordered [⟨0, 5, 0⟩] [⟨3, 9, 1⟩] 0 20 (by decide) (by decide)

/-! ## Termination measure for C9 -/

/-- Rank of a resumption state: how many more resumptions may happen before
an element of one of the two lists is consumed. -/
def rank : RangePairIter.IterState → Nat
  | .S1SticksOutBreak | .S2SticksOutBreak => 5
  | .S1SticksOut | .S2SticksOut => 4
  | .S1DragsBehindBreak | .S2DragsBehindBreak => 3
  | .S1DragsBehind | .S2DragsBehind => 2
  | .ConsumeS1Range | .ConsumeS2Range => 1
  | .OnlyInS1Range | .OnlyInS2Range | .ExactOverlap => 1
  | .Begin => 6
  | .End => 0

/-- The termination measure: remaining elements weighted by six, plus the
rank of the paused state. Every resumption strictly decreases it. -/
def mu (st : RangePairIter) : Nat :=
  6 * (st.s1Tel.trans.length + st.s2Tel.trans.length) + rank st.itState

theorem increment_trans (t : Tel) : (Tel.increment t).trans = t.next := by
  cases h : t.next <;> simp [Tel.increment, Tel.load, h]

theorem scan_trans1 (st : RangePairIter) :
    (RangePairIter.scan st).s1Tel.trans = st.s1Tel.trans := by
  cases hA : st.s1Tel.trans <;> cases hB : st.s2Tel.trans <;>
    simp only [RangePairIter.scan, hA, hB] <;>
    first
    | simp [hA, hB]
    | (split_ifs <;> simp [hA, hB])

theorem scan_trans2 (st : RangePairIter) :
    (RangePairIter.scan st).s2Tel.trans = st.s2Tel.trans := by
  cases hA : st.s1Tel.trans <;> cases hB : st.s2Tel.trans <;>
    simp only [RangePairIter.scan, hA, hB] <;>
    first
    | simp [hA, hB]
    | (split_ifs <;> simp [hA, hB])

theorem scan_rank_le (st : RangePairIter) :
    rank (RangePairIter.scan st).itState ≤ 5 := by
  cases hA : st.s1Tel.trans <;> cases hB : st.s2Tel.trans <;>
    simp only [RangePairIter.scan, hA, hB] <;>
    first
    | (split_ifs <;> simp [rank])
    | simp [rank]

/-- When the two heads start at the same key (as after re-installing a
remainder), the scan can only pause in a drags-behind break or the exact
overlap: rank at most 3. -/
theorem scan_rank_lows_eq {st : RangePairIter}
    (hne1 : st.s1Tel.trans ≠ []) (hne2 : st.s2Tel.trans ≠ [])
    (hlo : st.s1Tel.lowKey = st.s2Tel.lowKey)
    (hle1 : st.s1Tel.lowKey ≤ st.s1Tel.highKey)
    (hle2 : st.s2Tel.lowKey ≤ st.s2Tel.highKey) :
    rank (RangePairIter.scan st).itState ≤ 3 := by
  obtain ⟨a, t1, hA⟩ := List.exists_cons_of_ne_nil hne1
  obtain ⟨b2, t2, hB⟩ := List.exists_cons_of_ne_nil hne2
  have c1 : ¬ st.s1Tel.highKey < st.s2Tel.lowKey := by omega
  have c2 : ¬ st.s2Tel.highKey < st.s1Tel.lowKey := by omega
  have c3 : ¬ st.s1Tel.lowKey < st.s2Tel.lowKey := by omega
  have c4 : ¬ st.s2Tel.lowKey < st.s1Tel.lowKey := by omega
  simp only [RangePairIter.scan, hA, hB, if_neg c1, if_neg c2, if_neg c3, if_neg c4]
  by_cases c5 : st.s1Tel.highKey < st.s2Tel.highKey
  · rw [if_pos c5]
    simp [rank]
  · rw [if_neg c5]
    by_cases c6 : st.s2Tel.highKey < st.s1Tel.highKey
    · rw [if_pos c6]
      simp [rank]
    · rw [if_neg c6]
      simp [rank]

/-! Equations computing one resumption from each paused state. -/

theorem findNext_consumeS1_end {st : RangePairIter}
    (hS : st.itState = .ConsumeS1Range) (he : (st.s1Tel.increment).trans = []) :
    RangePairIter.findNext st =
      { st with s1Tel := st.s1Tel.increment, itState := .End } := by
  simp only [RangePairIter.findNext, hS]
  rw [if_pos (List.isEmpty_iff.mpr he)]

theorem findNext_consumeS1_more {st : RangePairIter}
    (hS : st.itState = .ConsumeS1Range) (he : (st.s1Tel.increment).trans ≠ []) :
    RangePairIter.findNext st =
      { st with
        s1Tel := st.s1Tel.increment
        itState := .ConsumeS1Range
        userState := .RangeInS1 } := by
  simp only [RangePairIter.findNext, hS]
  rw [if_neg (by simp [List.isEmpty_iff, he])]

theorem findNext_consumeS2_end {st : RangePairIter}
    (hS : st.itState = .ConsumeS2Range) (he : (st.s2Tel.increment).trans = []) :
    RangePairIter.findNext st =
      { st with s2Tel := st.s2Tel.increment, itState := .End } := by
  simp only [RangePairIter.findNext, hS]
  rw [if_pos (List.isEmpty_iff.mpr he)]

theorem findNext_consumeS2_more {st : RangePairIter}
    (hS : st.itState = .ConsumeS2Range) (he : (st.s2Tel.increment).trans ≠ []) :
    RangePairIter.findNext st =
      { st with
        s2Tel := st.s2Tel.increment
        itState := .ConsumeS2Range
        userState := .RangeInS2 } := by
  simp only [RangePairIter.findNext, hS]
  rw [if_neg (by simp [List.isEmpty_iff, he])]

theorem findNext_onlyInS1 {st : RangePairIter} (hS : st.itState = .OnlyInS1Range) :
    RangePairIter.findNext st =
      RangePairIter.scan { st with s1Tel := st.s1Tel.increment } := by
  simp only [RangePairIter.findNext, hS]

theorem findNext_onlyInS2 {st : RangePairIter} (hS : st.itState = .OnlyInS2Range) :
    RangePairIter.findNext st =
      RangePairIter.scan { st with s2Tel := st.s2Tel.increment } := by
  simp only [RangePairIter.findNext, hS]

theorem findNext_s1SticksOutBreak {st : RangePairIter}
    (hS : st.itState = .S1SticksOutBreak) :
    RangePairIter.findNext st =
      { st with itState := .S1SticksOut, userState := .RangeInS1 } := by
  simp only [RangePairIter.findNext, hS]

theorem findNext_s1SticksOut {st : RangePairIter} (hS : st.itState = .S1SticksOut) :
    RangePairIter.findNext st =
      RangePairIter.scan { st with s1Tel :=
        { st.s1Tel with
          lowKey := st.bottomLow
          highKey := st.bottomHigh
          trans := st.bottomTrans1 } } := by
  simp only [RangePairIter.findNext, hS]

theorem findNext_s2SticksOutBreak {st : RangePairIter}
    (hS : st.itState = .S2SticksOutBreak) :
    RangePairIter.findNext st =
      { st with itState := .S2SticksOut, userState := .RangeInS2 } := by
  simp only [RangePairIter.findNext, hS]

theorem findNext_s2SticksOut {st : RangePairIter} (hS : st.itState = .S2SticksOut) :
    RangePairIter.findNext st =
      RangePairIter.scan { st with s2Tel :=
        { st.s2Tel with
          lowKey := st.bottomLow
          highKey := st.bottomHigh
          trans := st.bottomTrans2 } } := by
  simp only [RangePairIter.findNext, hS]

theorem findNext_s2DragsBehindBreak {st : RangePairIter}
    (hS : st.itState = .S2DragsBehindBreak) :
    RangePairIter.findNext st =
      { st with itState := .S2DragsBehind, userState := .RangeOverlap } := by
  simp only [RangePairIter.findNext, hS]

theorem findNext_s2DragsBehind {st : RangePairIter} (hS : st.itState = .S2DragsBehind) :
    RangePairIter.findNext st =
      RangePairIter.scan { st with
        s2Tel := { st.s2Tel with
          lowKey := st.bottomLow
          highKey := st.bottomHigh
          trans := st.bottomTrans2 }
        s1Tel := st.s1Tel.increment } := by
  simp only [RangePairIter.findNext, hS]

theorem findNext_s1DragsBehindBreak {st : RangePairIter}
    (hS : st.itState = .S1DragsBehindBreak) :
    RangePairIter.findNext st =
      { st with itState := .S1DragsBehind, userState := .RangeOverlap } := by
  simp only [RangePairIter.findNext, hS]

theorem findNext_s1DragsBehind {st : RangePairIter} (hS : st.itState = .S1DragsBehind) :
    RangePairIter.findNext st =
      RangePairIter.scan { st with
        s1Tel := { st.s1Tel with
          lowKey := st.bottomLow
          highKey := st.bottomHigh
          trans := st.bottomTrans1 }
        s2Tel := st.s2Tel.increment } := by
  simp only [RangePairIter.findNext, hS]

theorem findNext_exactOverlap {st : RangePairIter} (hS : st.itState = .ExactOverlap) :
    RangePairIter.findNext st =
      RangePairIter.scan
        { st with s1Tel := st.s1Tel.increment, s2Tel := st.s2Tel.increment } := by
  simp only [RangePairIter.findNext, hS]

theorem findNext_end {st : RangePairIter} (hS : st.itState = .End) :
    RangePairIter.findNext st = st := by
  simp only [RangePairIter.findNext, hS]

theorem mu_eq (st : RangePairIter) :
    mu st = 6 * (st.s1Tel.trans.length + st.s2Tel.trans.length) + rank st.itState := rfl

/-- Every resumption from an invariant-satisfying non-end state strictly
decreases the measure. -/
theorem inv_mu {b : Int} {st : RangePairIter} (h : Inv b st)
    (hne : st.itState ≠ RangePairIter.IterState.End) :
    mu (RangePairIter.findNext st) < mu st := by
  cases hS : st.itState with
  | Begin =>
    simp only [Inv, hS] at h
  | End =>
    exact absurd hS hne
  | ConsumeS1Range =>
    simp only [Inv, hS] at h
    obtain ⟨hus, hne1, hs2, hwf⟩ := h
    obtain ⟨r, rest, hcons⟩ := List.exists_cons_of_ne_nil hne1
    have hnx : st.s1Tel.next = rest := by
      simp only [telWF, hcons] at hwf
      exact hwf.1
    have hit : (st.s1Tel.increment).trans = rest := by
      rw [increment_trans, hnx]
    have hR : mu st = 6 * ((rest.length + 1) + st.s2Tel.trans.length) + 1 := by
      rw [mu_eq, hS, hcons]
      rfl
    by_cases he : (st.s1Tel.increment).trans = []
    · rw [findNext_consumeS1_end hS he]
      have hL : mu { st with s1Tel := st.s1Tel.increment, itState := RangePairIter.IterState.End }
          = 6 * ((st.s1Tel.increment).trans.length + st.s2Tel.trans.length) + 0 := by
        rw [mu_eq]
        rfl
      rw [hL, hR, he]
      simp only [List.length_nil]
      omega
    · rw [findNext_consumeS1_more hS he]
      have hL : mu { st with
            s1Tel := st.s1Tel.increment
            itState := RangePairIter.IterState.ConsumeS1Range
            userState := RangePairIter.UserState.RangeInS1 }
          = 6 * ((st.s1Tel.increment).trans.length + st.s2Tel.trans.length) + 1 := by
        rw [mu_eq]
        rfl
      rw [hL, hR, hit]
      omega
  | ConsumeS2Range =>
    simp only [Inv, hS] at h
    obtain ⟨hus, hne2, hs1, hwf⟩ := h
    obtain ⟨r, rest, hcons⟩ := List.exists_cons_of_ne_nil hne2
    have hnx : st.s2Tel.next = rest := by
      simp only [telWF, hcons] at hwf
      exact hwf.1
    have hit : (st.s2Tel.increment).trans = rest := by
      rw [increment_trans, hnx]
    have hR : mu st = 6 * (st.s1Tel.trans.length + (rest.length + 1)) + 1 := by
      rw [mu_eq, hS, hcons]
      rfl
    by_cases he : (st.s2Tel.increment).trans = []
    · rw [findNext_consumeS2_end hS he]
      have hL : mu { st with s2Tel := st.s2Tel.increment, itState := RangePairIter.IterState.End }
          = 6 * (st.s1Tel.trans.length + (st.s2Tel.increment).trans.length) + 0 := by
        rw [mu_eq]
        rfl
      rw [hL, hR, he]
      simp only [List.length_nil]
      omega
    · rw [findNext_consumeS2_more hS he]
      have hL : mu { st with
            s2Tel := st.s2Tel.increment
            itState := RangePairIter.IterState.ConsumeS2Range
            userState := RangePairIter.UserState.RangeInS2 }
          = 6 * (st.s1Tel.trans.length + (st.s2Tel.increment).trans.length) + 1 := by
        rw [mu_eq]
        rfl
      rw [hL, hR, hit]
      omega
  | OnlyInS1Range =>
    simp only [Inv, hS] at h
    obtain ⟨hus, hne1, hne2, hwf1, hwf2, hlt⟩ := h
    obtain ⟨r, rest, hcons⟩ := List.exists_cons_of_ne_nil hne1
    have hnx : st.s1Tel.next = rest := by
      simp only [telWF, hcons] at hwf1
      exact hwf1.1
    rw [findNext_onlyInS1 hS]
    have h1t : (RangePairIter.scan { st with s1Tel := st.s1Tel.increment }).s1Tel.trans
        = rest := by
      rw [scan_trans1]
      show (st.s1Tel.increment).trans = rest
      rw [increment_trans, hnx]
    have h2t : (RangePairIter.scan { st with s1Tel := st.s1Tel.increment }).s2Tel.trans
        = st.s2Tel.trans := by
      rw [scan_trans2]
    have hr := scan_rank_le { st with s1Tel := st.s1Tel.increment }
    have hR : mu st = 6 * ((rest.length + 1) + st.s2Tel.trans.length) + 1 := by
      rw [mu_eq, hS, hcons]
      rfl
    rw [mu_eq, h1t, h2t, hR]
    omega
  | OnlyInS2Range =>
    simp only [Inv, hS] at h
    obtain ⟨hus, hne1, hne2, hwf1, hwf2, hlt⟩ := h
    obtain ⟨r, rest, hcons⟩ := List.exists_cons_of_ne_nil hne2
    have hnx : st.s2Tel.next = rest := by
      simp only [telWF, hcons] at hwf2
      exact hwf2.1
    rw [findNext_onlyInS2 hS]
    have h1t : (RangePairIter.scan { st with s2Tel := st.s2Tel.increment }).s1Tel.trans
        = st.s1Tel.trans := by
      rw [scan_trans1]
    have h2t : (RangePairIter.scan { st with s2Tel := st.s2Tel.increment }).s2Tel.trans
        = rest := by
      rw [scan_trans2]
      show (st.s2Tel.increment).trans = rest
      rw [increment_trans, hnx]
    have hr := scan_rank_le { st with s2Tel := st.s2Tel.increment }
    have hR : mu st = 6 * (st.s1Tel.trans.length + (rest.length + 1)) + 1 := by
      rw [mu_eq, hS, hcons]
      rfl
    rw [mu_eq, h1t, h2t, hR]
    omega
  | S1SticksOutBreak =>
    rw [findNext_s1SticksOutBreak hS]
    have hR : mu st = 6 * (st.s1Tel.trans.length + st.s2Tel.trans.length) + 5 := by
      rw [mu_eq, hS]
      rfl
    have hL : mu { st with
          itState := RangePairIter.IterState.S1SticksOut
          userState := RangePairIter.UserState.RangeInS1 }
        = 6 * (st.s1Tel.trans.length + st.s2Tel.trans.length) + 4 := by
      rw [mu_eq]
      rfl
    rw [hL, hR]
    omega
  | S1SticksOut =>
    simp only [Inv, hS] at h
    obtain ⟨hus, hne1, hne2, hbtr, hlb, hlh, hbl, hblh, hs2l, hwf2, hmatch⟩ := h
    obtain ⟨hb2, hlh2⟩ := telWF_head hwf2 hne2
    rw [findNext_s1SticksOut hS]
    have h1t : (RangePairIter.scan { st with s1Tel :=
        { st.s1Tel with
          lowKey := st.bottomLow
          highKey := st.bottomHigh
          trans := st.bottomTrans1 } }).s1Tel.trans = st.s1Tel.trans := by
      rw [scan_trans1]
      show st.bottomTrans1 = st.s1Tel.trans
      exact hbtr
    have h2t : (RangePairIter.scan { st with s1Tel :=
        { st.s1Tel with
          lowKey := st.bottomLow
          highKey := st.bottomHigh
          trans := st.bottomTrans1 } }).s2Tel.trans = st.s2Tel.trans := by
      rw [scan_trans2]
    have hr : rank (RangePairIter.scan { st with s1Tel :=
        { st.s1Tel with
          lowKey := st.bottomLow
          highKey := st.bottomHigh
          trans := st.bottomTrans1 } }).itState ≤ 3 := by
      apply scan_rank_lows_eq
      · show st.bottomTrans1 ≠ []
        rw [hbtr]
        exact hne1
      · show st.s2Tel.trans ≠ []
        exact hne2
      · show st.bottomLow = st.s2Tel.lowKey
        omega
      · show st.bottomLow ≤ st.bottomHigh
        exact hblh
      · exact hlh2
    have hR : mu st = 6 * (st.s1Tel.trans.length + st.s2Tel.trans.length) + 4 := by
      rw [mu_eq, hS]
      rfl
    rw [mu_eq, h1t, h2t, hR]
    omega
  | S2SticksOutBreak =>
    rw [findNext_s2SticksOutBreak hS]
    have hR : mu st = 6 * (st.s1Tel.trans.length + st.s2Tel.trans.length) + 5 := by
      rw [mu_eq, hS]
      rfl
    have hL : mu { st with
          itState := RangePairIter.IterState.S2SticksOut
          userState := RangePairIter.UserState.RangeInS2 }
        = 6 * (st.s1Tel.trans.length + st.s2Tel.trans.length) + 4 := by
      rw [mu_eq]
      rfl
    rw [hL, hR]
    omega
  | S2SticksOut =>
    simp only [Inv, hS] at h
    obtain ⟨hus, hne1, hne2, hbtr, hlb, hlh, hbl, hblh, hs1l, hwf1, hmatch⟩ := h
    obtain ⟨hb1, hlh1⟩ := telWF_head hwf1 hne1
    rw [findNext_s2SticksOut hS]
    have h1t : (RangePairIter.scan { st with s2Tel :=
        { st.s2Tel with
          lowKey := st.bottomLow
          highKey := st.bottomHigh
          trans := st.bottomTrans2 } }).s1Tel.trans = st.s1Tel.trans := by
      rw [scan_trans1]
    have h2t : (RangePairIter.scan { st with s2Tel :=
        { st.s2Tel with
          lowKey := st.bottomLow
          highKey := st.bottomHigh
          trans := st.bottomTrans2 } }).s2Tel.trans = st.s2Tel.trans := by
      rw [scan_trans2]
      show st.bottomTrans2 = st.s2Tel.trans
      exact hbtr
    have hr : rank (RangePairIter.scan { st with s2Tel :=
        { st.s2Tel with
          lowKey := st.bottomLow
          highKey := st.bottomHigh
          trans := st.bottomTrans2 } }).itState ≤ 3 := by
      apply scan_rank_lows_eq
      · show st.s1Tel.trans ≠ []
        exact hne1
      · show st.bottomTrans2 ≠ []
        rw [hbtr]
        exact hne2
      · show st.s1Tel.lowKey = st.bottomLow
        omega
      · exact hlh1
      · show st.bottomLow ≤ st.bottomHigh
        exact hblh
    have hR : mu st = 6 * (st.s1Tel.trans.length + st.s2Tel.trans.length) + 4 := by
      rw [mu_eq, hS]
      rfl
    rw [mu_eq, h1t, h2t, hR]
    omega
  | S2DragsBehindBreak =>
    rw [findNext_s2DragsBehindBreak hS]
    have hR : mu st = 6 * (st.s1Tel.trans.length + st.s2Tel.trans.length) + 3 := by
      rw [mu_eq, hS]
      rfl
    have hL : mu { st with
          itState := RangePairIter.IterState.S2DragsBehind
          userState := RangePairIter.UserState.RangeOverlap }
        = 6 * (st.s1Tel.trans.length + st.s2Tel.trans.length) + 2 := by
      rw [mu_eq]
      rfl
    rw [hL, hR]
    omega
  | S2DragsBehind =>
    simp only [Inv, hS] at h
    obtain ⟨hus, hne1, hne2, hbtr, hwf1, hlo, hhi, hbl, hblh, hmatch⟩ := h
    obtain ⟨r, rest, hcons⟩ := List.exists_cons_of_ne_nil hne1
    have hnx : st.s1Tel.next = rest := by
      simp only [telWF, hcons] at hwf1
      exact hwf1.1
    rw [findNext_s2DragsBehind hS]
    have h1t : (RangePairIter.scan { st with
        s2Tel := { st.s2Tel with
          lowKey := st.bottomLow
          highKey := st.bottomHigh
          trans := st.bottomTrans2 }
        s1Tel := st.s1Tel.increment }).s1Tel.trans = rest := by
      rw [scan_trans1]
      show (st.s1Tel.increment).trans = rest
      rw [increment_trans, hnx]
    have h2t : (RangePairIter.scan { st with
        s2Tel := { st.s2Tel with
          lowKey := st.bottomLow
          highKey := st.bottomHigh
          trans := st.bottomTrans2 }
        s1Tel := st.s1Tel.increment }).s2Tel.trans = st.s2Tel.trans := by
      rw [scan_trans2]
      show st.bottomTrans2 = st.s2Tel.trans
      exact hbtr
    have hr := scan_rank_le { st with
      s2Tel := { st.s2Tel with
        lowKey := st.bottomLow
        highKey := st.bottomHigh
        trans := st.bottomTrans2 }
      s1Tel := st.s1Tel.increment }
    have hR : mu st = 6 * ((rest.length + 1) + st.s2Tel.trans.length) + 2 := by
      rw [mu_eq, hS, hcons]
      rfl
    rw [mu_eq, h1t, h2t, hR]
    omega
  | S1DragsBehindBreak =>
    rw [findNext_s1DragsBehindBreak hS]
    have hR : mu st = 6 * (st.s1Tel.trans.length + st.s2Tel.trans.length) + 3 := by
      rw [mu_eq, hS]
      rfl
    have hL : mu { st with
          itState := RangePairIter.IterState.S1DragsBehind
          userState := RangePairIter.UserState.RangeOverlap }
        = 6 * (st.s1Tel.trans.length + st.s2Tel.trans.length) + 2 := by
      rw [mu_eq]
      rfl
    rw [hL, hR]
    omega
  | S1DragsBehind =>
    simp only [Inv, hS] at h
    obtain ⟨hus, hne1, hne2, hbtr, hwf2, hlo, hhi, hbl, hblh, hmatch⟩ := h
    obtain ⟨r, rest, hcons⟩ := List.exists_cons_of_ne_nil hne2
    have hnx : st.s2Tel.next = rest := by
      simp only [telWF, hcons] at hwf2
      exact hwf2.1
    rw [findNext_s1DragsBehind hS]
    have h1t : (RangePairIter.scan { st with
        s1Tel := { st.s1Tel with
          lowKey := st.bottomLow
          highKey := st.bottomHigh
          trans := st.bottomTrans1 }
        s2Tel := st.s2Tel.increment }).s1Tel.trans = st.s1Tel.trans := by
      rw [scan_trans1]
      show st.bottomTrans1 = st.s1Tel.trans
      exact hbtr
    have h2t : (RangePairIter.scan { st with
        s1Tel := { st.s1Tel with
          lowKey := st.bottomLow
          highKey := st.bottomHigh
          trans := st.bottomTrans1 }
        s2Tel := st.s2Tel.increment }).s2Tel.trans = rest := by
      rw [scan_trans2]
      show (st.s2Tel.increment).trans = rest
      rw [increment_trans, hnx]
    have hr := scan_rank_le { st with
      s1Tel := { st.s1Tel with
        lowKey := st.bottomLow
        highKey := st.bottomHigh
        trans := st.bottomTrans1 }
      s2Tel := st.s2Tel.increment }
    have hR : mu st = 6 * (st.s1Tel.trans.length + (rest.length + 1)) + 2 := by
      rw [mu_eq, hS, hcons]
      rfl
    rw [mu_eq, h1t, h2t, hR]
    omega
  | ExactOverlap =>
    simp only [Inv, hS] at h
    obtain ⟨hus, hne1, hne2, hwf1, hwf2, hlo, hhi⟩ := h
    obtain ⟨r1, rest1, hcons1⟩ := List.exists_cons_of_ne_nil hne1
    obtain ⟨r2, rest2, hcons2⟩ := List.exists_cons_of_ne_nil hne2
    have hnx1 : st.s1Tel.next = rest1 := by
      simp only [telWF, hcons1] at hwf1
      exact hwf1.1
    have hnx2 : st.s2Tel.next = rest2 := by
      simp only [telWF, hcons2] at hwf2
      exact hwf2.1
    rw [findNext_exactOverlap hS]
    have h1t : (RangePairIter.scan
        { st with s1Tel := st.s1Tel.increment, s2Tel := st.s2Tel.increment }).s1Tel.trans
        = rest1 := by
      rw [scan_trans1]
      show (st.s1Tel.increment).trans = rest1
      rw [increment_trans, hnx1]
    have h2t : (RangePairIter.scan
        { st with s1Tel := st.s1Tel.increment, s2Tel := st.s2Tel.increment }).s2Tel.trans
        = rest2 := by
      rw [scan_trans2]
      show (st.s2Tel.increment).trans = rest2
      rw [increment_trans, hnx2]
    have hr := scan_rank_le { st with s1Tel := st.s1Tel.increment, s2Tel := st.s2Tel.increment }
    have hR : mu st = 6 * ((rest1.length + 1) + (rest2.length + 1)) + 1 := by
      rw [mu_eq, hS, hcons1, hcons2]
      rfl
    rw [mu_eq, h1t, h2t, hR]
    omega

/-- Once the iterator is in the end state, further resumptions do nothing:
`end()` stays true. -/
theorem nextN_end {st : RangePairIter} (hS : st.itState = RangePairIter.IterState.End) :
    ∀ n, RangePairIter.nextN n st = st := by
  intro n
  induction n with
  | zero => rfl
  | succ m ih =>
    show RangePairIter.nextN m (RangePairIter.findNext st) = st
    rw [findNext_end hS]
    exact ih

/-- From any invariant-satisfying paused state, at most `mu` further
resumptions reach the end state. -/
theorem inv_reaches_end {b : Int} {st : RangePairIter} (h : Inv b st) :
    ∀ fuel, mu st ≤ fuel →
      (RangePairIter.nextN fuel st).itState = RangePairIter.IterState.End := by
  intro fuel
  induction fuel generalizing b st with
  | zero =>
    intro hle
    show st.itState = RangePairIter.IterState.End
    have hm := mu_eq st
    have hr : rank st.itState = 0 := by omega
    cases hS : st.itState
    case End => rfl
    all_goals (rw [hS] at hr; exact absurd hr (by decide))
  | succ n ih =>
    intro hle
    by_cases hEnd : st.itState = RangePairIter.IterState.End
    · show (RangePairIter.nextN n (RangePairIter.findNext st)).itState = _
      rw [findNext_end hEnd, nextN_end hEnd n]
      exact hEnd
    · have hmu := inv_mu h hEnd
      show (RangePairIter.nextN n (RangePairIter.findNext st)).itState = _
      exact ih (inv_findNext h) (by omega)

/-- An ordered block cover: the second list consists of one non-empty
contiguous block of each element of the first list, in order. This is the
shape of "every input range contributes exactly once, and no element is
revisited after its events are emitted". -/
inductive Covers : List Nat → List Nat → Prop
  | nil : Covers [] []
  | block {i : Nat} {orig out : List Nat} (m : Nat) (h : Covers orig out) :
      Covers (i :: orig) (List.replicate (m + 1) i ++ out)

theorem covers_cons_self {i : Nat} {orig out : List Nat} (h : Covers (i :: orig) out) :
    Covers (i :: orig) (i :: out) := by
  cases h with
  | block m h' =>
    rename_i o
    have heq : i :: (List.replicate (m + 1) i ++ o) = List.replicate (m + 1 + 1) i ++ o := by
      simp [List.replicate_succ]
    rw [heq]
    exact Covers.block (m + 1) h'

theorem covers_new_block {i : Nat} {orig out : List Nat} (h : Covers orig out) :
    Covers (i :: orig) (i :: out) := by
  have heq : i :: out = List.replicate (0 + 1) i ++ out := by simp
  rw [heq]
  exact Covers.block 0 h

theorem ids1_cons_some {e : Ev} {l : List Ev} {i : Nat} (h : e.id1 = some i) :
    ids1 (e :: l) = i :: ids1 l := by
  simp [ids1, List.filterMap_cons, h]

theorem ids1_cons_none {e : Ev} {l : List Ev} (h : e.id1 = none) :
    ids1 (e :: l) = ids1 l := by
  simp [ids1, List.filterMap_cons, h]

theorem ids2_cons_some {e : Ev} {l : List Ev} {i : Nat} (h : e.id2 = some i) :
    ids2 (e :: l) = i :: ids2 l := by
  simp [ids2, List.filterMap_cons, h]

theorem ids2_cons_none {e : Ev} {l : List Ev} (h : e.id2 = none) :
    ids2 (e :: l) = ids2 l := by
  simp [ids2, List.filterMap_cons, h]

/-- The identities of the elements not yet consumed on each side. -/
def effIds1 (st : RangePairIter) : List Nat :=
  st.s1Tel.trans.map Rng.id

def effIds2 (st : RangePairIter) : List Nat :=
  st.s2Tel.trans.map Rng.id

/-- Single-pass coverage: with enough fuel to finish, the s1-side event
identities form one contiguous non-empty block per remaining s1 element, in
order — and symmetrically for s2. No element is revisited after its block. -/
theorem inv_covers {b : Int} {st : RangePairIter} (h : Inv b st) :
    ∀ fuel, mu st ≤ fuel →
      Covers (effIds1 st) (ids1 (RangePairIter.runAux fuel st))
        ∧ Covers (effIds2 st) (ids2 (RangePairIter.runAux fuel st)) := by
  intro fuel
  induction fuel generalizing b st with
  | zero =>
    intro hle
    have hEnd : st.itState = RangePairIter.IterState.End := by
      have hm := mu_eq st
      have hr : rank st.itState = 0 := by omega
      cases hS : st.itState
      case End => rfl
      all_goals (rw [hS] at hr; exact absurd hr (by decide))
    simp only [Inv, hEnd] at h
    constructor
    · rw [show effIds1 st = [] from by simp [effIds1, h.1]]
      exact Covers.nil
    · rw [show effIds2 st = [] from by simp [effIds2, h.2]]
      exact Covers.nil
  | succ n ih =>
    intro hle
    by_cases hEnd : st.itState = RangePairIter.IterState.End
    · simp only [Inv, hEnd] at h
      have hrun0 : RangePairIter.runAux (n + 1) st = [] := by
        simp [RangePairIter.runAux, hEnd]
      rw [hrun0]
      constructor
      · rw [show effIds1 st = [] from by simp [effIds1, h.1]]
        exact Covers.nil
      · rw [show effIds2 st = [] from by simp [effIds2, h.2]]
        exact Covers.nil
    · have hrun : RangePairIter.runAux (n + 1) st
          = RangePairIter.evOf st :: RangePairIter.runAux n (RangePairIter.findNext st) := by
        simp [RangePairIter.runAux, hEnd]
      have hmu := inv_mu h hEnd
      have hih := ih (inv_findNext h) (by omega)
      cases hS : st.itState with
      | Begin =>
        simp only [Inv, hS] at h
      | End =>
        exact absurd hS hEnd
      | ConsumeS1Range =>
        simp only [Inv, hS] at h
        obtain ⟨hus, hne1, hs2, hwf⟩ := h
        obtain ⟨r, rest, hcons⟩ := List.exists_cons_of_ne_nil hne1
        have hnx : st.s1Tel.next = rest := by
          simp only [telWF, hcons] at hwf
          exact hwf.1
        have hev : RangePairIter.evOf st =
            ⟨.RangeInS1, st.s1Tel.lowKey, st.s1Tel.highKey,
              st.s1Tel.trans.head?.map Rng.id, none⟩ := by
          simp only [RangePairIter.evOf, hus]
        have hid1 : (RangePairIter.evOf st).id1 = some r.id := by
          rw [hev]
          show st.s1Tel.trans.head?.map Rng.id = some r.id
          rw [hcons]
          rfl
        have hid2 : (RangePairIter.evOf st).id2 = none := by
          rw [hev]
        have ht1 : (RangePairIter.findNext st).s1Tel.trans = rest := by
          by_cases he : (st.s1Tel.increment).trans = []
          · simp [findNext_consumeS1_end hS he, increment_trans, hnx]
          · simp [findNext_consumeS1_more hS he, increment_trans, hnx]
        have ht2 : (RangePairIter.findNext st).s2Tel.trans = st.s2Tel.trans := by
          by_cases he : (st.s1Tel.increment).trans = []
          · simp [findNext_consumeS1_end hS he]
          · simp [findNext_consumeS1_more hS he]
        constructor
        · rw [hrun, ids1_cons_some hid1,
            show effIds1 st = r.id :: rest.map Rng.id from by simp [effIds1, hcons]]
          have h1 := hih.1
          rw [show effIds1 (RangePairIter.findNext st) = rest.map Rng.id from by
            simp [effIds1, ht1]] at h1
          exact covers_new_block h1
        · rw [hrun, ids2_cons_none hid2]
          have h2 := hih.2
          rw [show effIds2 (RangePairIter.findNext st) = effIds2 st from by
            simp [effIds2, ht2]] at h2
          exact h2
      | ConsumeS2Range =>
        simp only [Inv, hS] at h
        obtain ⟨hus, hne2, hs1, hwf⟩ := h
        obtain ⟨r, rest, hcons⟩ := List.exists_cons_of_ne_nil hne2
        have hnx : st.s2Tel.next = rest := by
          simp only [telWF, hcons] at hwf
          exact hwf.1
        have hev : RangePairIter.evOf st =
            ⟨.RangeInS2, st.s2Tel.lowKey, st.s2Tel.highKey, none,
              st.s2Tel.trans.head?.map Rng.id⟩ := by
          simp only [RangePairIter.evOf, hus]
        have hid1 : (RangePairIter.evOf st).id1 = none := by
          rw [hev]
        have hid2 : (RangePairIter.evOf st).id2 = some r.id := by
          rw [hev]
          show st.s2Tel.trans.head?.map Rng.id = some r.id
          rw [hcons]
          rfl
        have ht1 : (RangePairIter.findNext st).s1Tel.trans = st.s1Tel.trans := by
          by_cases he : (st.s2Tel.increment).trans = []
          · simp [findNext_consumeS2_end hS he]
          · simp [findNext_consumeS2_more hS he]
        have ht2 : (RangePairIter.findNext st).s2Tel.trans = rest := by
          by_cases he : (st.s2Tel.increment).trans = []
          · simp [findNext_consumeS2_end hS he, increment_trans, hnx]
          · simp [findNext_consumeS2_more hS he, increment_trans, hnx]
        constructor
        · rw [hrun, ids1_cons_none hid1]
          have h1 := hih.1
          rw [show effIds1 (RangePairIter.findNext st) = effIds1 st from by
            simp [effIds1, ht1]] at h1
          exact h1
        · rw [hrun, ids2_cons_some hid2,
            show effIds2 st = r.id :: rest.map Rng.id from by simp [effIds2, hcons]]
          have h2 := hih.2
          rw [show effIds2 (RangePairIter.findNext st) = rest.map Rng.id from by
            simp [effIds2, ht2]] at h2
          exact covers_new_block h2
      | OnlyInS1Range =>
        simp only [Inv, hS] at h
        obtain ⟨hus, hne1, hne2, hwf1, hwf2, hlt⟩ := h
        obtain ⟨r, rest, hcons⟩ := List.exists_cons_of_ne_nil hne1
        have hnx : st.s1Tel.next = rest := by
          simp only [telWF, hcons] at hwf1
          exact hwf1.1
        have hev : RangePairIter.evOf st =
            ⟨.RangeInS1, st.s1Tel.lowKey, st.s1Tel.highKey,
              st.s1Tel.trans.head?.map Rng.id, none⟩ := by
          simp only [RangePairIter.evOf, hus]
        have hid1 : (RangePairIter.evOf st).id1 = some r.id := by
          rw [hev]
          show st.s1Tel.trans.head?.map Rng.id = some r.id
          rw [hcons]
          rfl
        have hid2 : (RangePairIter.evOf st).id2 = none := by
          rw [hev]
        have ht1 : (RangePairIter.findNext st).s1Tel.trans = rest := by
          simp [findNext_onlyInS1 hS, scan_trans1, increment_trans, hnx]
        have ht2 : (RangePairIter.findNext st).s2Tel.trans = st.s2Tel.trans := by
          simp [findNext_onlyInS1 hS, scan_trans2]
        constructor
        · rw [hrun, ids1_cons_some hid1,
            show effIds1 st = r.id :: rest.map Rng.id from by simp [effIds1, hcons]]
          have h1 := hih.1
          rw [show effIds1 (RangePairIter.findNext st) = rest.map Rng.id from by
            simp [effIds1, ht1]] at h1
          exact covers_new_block h1
        · rw [hrun, ids2_cons_none hid2]
          have h2 := hih.2
          rw [show effIds2 (RangePairIter.findNext st) = effIds2 st from by
            simp [effIds2, ht2]] at h2
          exact h2
      | OnlyInS2Range =>
        simp only [Inv, hS] at h
        obtain ⟨hus, hne1, hne2, hwf1, hwf2, hlt⟩ := h
        obtain ⟨r, rest, hcons⟩ := List.exists_cons_of_ne_nil hne2
        have hnx : st.s2Tel.next = rest := by
          simp only [telWF, hcons] at hwf2
          exact hwf2.1
        have hev : RangePairIter.evOf st =
            ⟨.RangeInS2, st.s2Tel.lowKey, st.s2Tel.highKey, none,
              st.s2Tel.trans.head?.map Rng.id⟩ := by
          simp only [RangePairIter.evOf, hus]
        have hid1 : (RangePairIter.evOf st).id1 = none := by
          rw [hev]
        have hid2 : (RangePairIter.evOf st).id2 = some r.id := by
          rw [hev]
          show st.s2Tel.trans.head?.map Rng.id = some r.id
          rw [hcons]
          rfl
        have ht1 : (RangePairIter.findNext st).s1Tel.trans = st.s1Tel.trans := by
          simp [findNext_onlyInS2 hS, scan_trans1]
        have ht2 : (RangePairIter.findNext st).s2Tel.trans = rest := by
          simp [findNext_onlyInS2 hS, scan_trans2, increment_trans, hnx]
        constructor
        · rw [hrun, ids1_cons_none hid1]
          have h1 := hih.1
          rw [show effIds1 (RangePairIter.findNext st) = effIds1 st from by
            simp [effIds1, ht1]] at h1
          exact h1
        · rw [hrun, ids2_cons_some hid2,
            show effIds2 st = r.id :: rest.map Rng.id from by simp [effIds2, hcons]]
          have h2 := hih.2
          rw [show effIds2 (RangePairIter.findNext st) = rest.map Rng.id from by
            simp [effIds2, ht2]] at h2
          exact covers_new_block h2
      | S1SticksOutBreak =>
        simp only [Inv, hS] at h
        obtain ⟨hus, hne1, hne2, hbtr, hlb, hlh, hbl, hblh, hs2l, hwf2, hmatch⟩ := h
        obtain ⟨r, rest, hcons⟩ := List.exists_cons_of_ne_nil hne1
        have hev : RangePairIter.evOf st =
            ⟨.BreakS1, st.s1Tel.lowKey, st.s1Tel.highKey,
              st.s1Tel.trans.head?.map Rng.id, none⟩ := by
          simp only [RangePairIter.evOf, hus]
        have hid1 : (RangePairIter.evOf st).id1 = some r.id := by
          rw [hev]
          show st.s1Tel.trans.head?.map Rng.id = some r.id
          rw [hcons]
          rfl
        have hid2 : (RangePairIter.evOf st).id2 = none := by
          rw [hev]
        have ht1 : (RangePairIter.findNext st).s1Tel.trans = st.s1Tel.trans := by
          simp [findNext_s1SticksOutBreak hS]
        have ht2 : (RangePairIter.findNext st).s2Tel.trans = st.s2Tel.trans := by
          simp [findNext_s1SticksOutBreak hS]
        have heff : effIds1 st = r.id :: rest.map Rng.id := by
          simp [effIds1, hcons]
        constructor
        · rw [hrun, ids1_cons_some hid1, heff]
          have h1 := hih.1
          rw [show effIds1 (RangePairIter.findNext st) = effIds1 st from by
            simp [effIds1, ht1], heff] at h1
          exact covers_cons_self h1
        · rw [hrun, ids2_cons_none hid2]
          have h2 := hih.2
          rw [show effIds2 (RangePairIter.findNext st) = effIds2 st from by
            simp [effIds2, ht2]] at h2
          exact h2
      | S1SticksOut =>
        simp only [Inv, hS] at h
        obtain ⟨hus, hne1, hne2, hbtr, hlb, hlh, hbl, hblh, hs2l, hwf2, hmatch⟩ := h
        obtain ⟨r, rest, hcons⟩ := List.exists_cons_of_ne_nil hne1
        have hev : RangePairIter.evOf st =
            ⟨.RangeInS1, st.s1Tel.lowKey, st.s1Tel.highKey,
              st.s1Tel.trans.head?.map Rng.id, none⟩ := by
          simp only [RangePairIter.evOf, hus]
        have hid1 : (RangePairIter.evOf st).id1 = some r.id := by
          rw [hev]
          show st.s1Tel.trans.head?.map Rng.id = some r.id
          rw [hcons]
          rfl
        have hid2 : (RangePairIter.evOf st).id2 = none := by
          rw [hev]
        have ht1 : (RangePairIter.findNext st).s1Tel.trans = st.s1Tel.trans := by
          simp [findNext_s1SticksOut hS, scan_trans1, hbtr]
        have ht2 : (RangePairIter.findNext st).s2Tel.trans = st.s2Tel.trans := by
          simp [findNext_s1SticksOut hS, scan_trans2]
        have heff : effIds1 st = r.id :: rest.map Rng.id := by
          simp [effIds1, hcons]
        constructor
        · rw [hrun, ids1_cons_some hid1, heff]
          have h1 := hih.1
          rw [show effIds1 (RangePairIter.findNext st) = effIds1 st from by
            simp [effIds1, ht1], heff] at h1
          exact covers_cons_self h1
        · rw [hrun, ids2_cons_none hid2]
          have h2 := hih.2
          rw [show effIds2 (RangePairIter.findNext st) = effIds2 st from by
            simp [effIds2, ht2]] at h2
          exact h2
      | S2SticksOutBreak =>
        simp only [Inv, hS] at h
        obtain ⟨hus, hne1, hne2, hbtr, hlb, hlh, hbl, hblh, hs1l, hwf1, hmatch⟩ := h
        obtain ⟨r, rest, hcons⟩ := List.exists_cons_of_ne_nil hne2
        have hev : RangePairIter.evOf st =
            ⟨.BreakS2, st.s2Tel.lowKey, st.s2Tel.highKey, none,
              st.s2Tel.trans.head?.map Rng.id⟩ := by
          simp only [RangePairIter.evOf, hus]
        have hid1 : (RangePairIter.evOf st).id1 = none := by
          rw [hev]
        have hid2 : (RangePairIter.evOf st).id2 = some r.id := by
          rw [hev]
          show st.s2Tel.trans.head?.map Rng.id = some r.id
          rw [hcons]
          rfl
        have ht1 : (RangePairIter.findNext st).s1Tel.trans = st.s1Tel.trans := by
          simp [findNext_s2SticksOutBreak hS]
        have ht2 : (RangePairIter.findNext st).s2Tel.trans = st.s2Tel.trans := by
          simp [findNext_s2SticksOutBreak hS]
        have heff : effIds2 st = r.id :: rest.map Rng.id := by
          simp [effIds2, hcons]
        constructor
        · rw [hrun, ids1_cons_none hid1]
          have h1 := hih.1
          rw [show effIds1 (RangePairIter.findNext st) = effIds1 st from by
            simp [effIds1, ht1]] at h1
          exact h1
        · rw [hrun, ids2_cons_some hid2, heff]
          have h2 := hih.2
          rw [show effIds2 (RangePairIter.findNext st) = effIds2 st from by
            simp [effIds2, ht2], heff] at h2
          exact covers_cons_self h2
      | S2SticksOut =>
        simp only [Inv, hS] at h
        obtain ⟨hus, hne1, hne2, hbtr, hlb, hlh, hbl, hblh, hs1l, hwf1, hmatch⟩ := h
        obtain ⟨r, rest, hcons⟩ := List.exists_cons_of_ne_nil hne2
        have hev : RangePairIter.evOf st =
            ⟨.RangeInS2, st.s2Tel.lowKey, st.s2Tel.highKey, none,
              st.s2Tel.trans.head?.map Rng.id⟩ := by
          simp only [RangePairIter.evOf, hus]
        have hid1 : (RangePairIter.evOf st).id1 = none := by
          rw [hev]
        have hid2 : (RangePairIter.evOf st).id2 = some r.id := by
          rw [hev]
          show st.s2Tel.trans.head?.map Rng.id = some r.id
          rw [hcons]
          rfl
        have ht1 : (RangePairIter.findNext st).s1Tel.trans = st.s1Tel.trans := by
          simp [findNext_s2SticksOut hS, scan_trans1]
        have ht2 : (RangePairIter.findNext st).s2Tel.trans = st.s2Tel.trans := by
          simp [findNext_s2SticksOut hS, scan_trans2, hbtr]
        have heff : effIds2 st = r.id :: rest.map Rng.id := by
          simp [effIds2, hcons]
        constructor
        · rw [hrun, ids1_cons_none hid1]
          have h1 := hih.1
          rw [show effIds1 (RangePairIter.findNext st) = effIds1 st from by
            simp [effIds1, ht1]] at h1
          exact h1
        · rw [hrun, ids2_cons_some hid2, heff]
          have h2 := hih.2
          rw [show effIds2 (RangePairIter.findNext st) = effIds2 st from by
            simp [effIds2, ht2], heff] at h2
          exact covers_cons_self h2
      | S2DragsBehindBreak =>
        simp only [Inv, hS] at h
        obtain ⟨hus, hne1, hne2, hbtr, hwf1, hlo, hhi, hbl, hblh, hmatch⟩ := h
        obtain ⟨r, rest, hcons⟩ := List.exists_cons_of_ne_nil hne2
        have hev : RangePairIter.evOf st =
            ⟨.BreakS2, st.s2Tel.lowKey, st.s2Tel.highKey, none,
              st.s2Tel.trans.head?.map Rng.id⟩ := by
          simp only [RangePairIter.evOf, hus]
        have hid1 : (RangePairIter.evOf st).id1 = none := by
          rw [hev]
        have hid2 : (RangePairIter.evOf st).id2 = some r.id := by
          rw [hev]
          show st.s2Tel.trans.head?.map Rng.id = some r.id
          rw [hcons]
          rfl
        have ht1 : (RangePairIter.findNext st).s1Tel.trans = st.s1Tel.trans := by
          simp [findNext_s2DragsBehindBreak hS]
        have ht2 : (RangePairIter.findNext st).s2Tel.trans = st.s2Tel.trans := by
          simp [findNext_s2DragsBehindBreak hS]
        have heff : effIds2 st = r.id :: rest.map Rng.id := by
          simp [effIds2, hcons]
        constructor
        · rw [hrun, ids1_cons_none hid1]
          have h1 := hih.1
          rw [show effIds1 (RangePairIter.findNext st) = effIds1 st from by
            simp [effIds1, ht1]] at h1
          exact h1
        · rw [hrun, ids2_cons_some hid2, heff]
          have h2 := hih.2
          rw [show effIds2 (RangePairIter.findNext st) = effIds2 st from by
            simp [effIds2, ht2], heff] at h2
          exact covers_cons_self h2
      | S2DragsBehind =>
        simp only [Inv, hS] at h
        obtain ⟨hus, hne1, hne2, hbtr, hwf1, hlo, hhi, hbl, hblh, hmatch⟩ := h
        obtain ⟨r1, rest1, hcons1⟩ := List.exists_cons_of_ne_nil hne1
        obtain ⟨r2, rest2, hcons2⟩ := List.exists_cons_of_ne_nil hne2
        have hnx1 : st.s1Tel.next = rest1 := by
          simp only [telWF, hcons1] at hwf1
          exact hwf1.1
        have hev : RangePairIter.evOf st =
            ⟨.RangeOverlap, st.s1Tel.lowKey, st.s1Tel.highKey,
              st.s1Tel.trans.head?.map Rng.id, st.s2Tel.trans.head?.map Rng.id⟩ := by
          simp only [RangePairIter.evOf, hus]
        have hid1 : (RangePairIter.evOf st).id1 = some r1.id := by
          rw [hev]
          show st.s1Tel.trans.head?.map Rng.id = some r1.id
          rw [hcons1]
          rfl
        have hid2 : (RangePairIter.evOf st).id2 = some r2.id := by
          rw [hev]
          show st.s2Tel.trans.head?.map Rng.id = some r2.id
          rw [hcons2]
          rfl
        have ht1 : (RangePairIter.findNext st).s1Tel.trans = rest1 := by
          simp [findNext_s2DragsBehind hS, scan_trans1, increment_trans, hnx1]
        have ht2 : (RangePairIter.findNext st).s2Tel.trans = st.s2Tel.trans := by
          simp [findNext_s2DragsBehind hS, scan_trans2, hbtr]
        have heff2 : effIds2 st = r2.id :: rest2.map Rng.id := by
          simp [effIds2, hcons2]
        constructor
        · rw [hrun, ids1_cons_some hid1,
            show effIds1 st = r1.id :: rest1.map Rng.id from by simp [effIds1, hcons1]]
          have h1 := hih.1
          rw [show effIds1 (RangePairIter.findNext st) = rest1.map Rng.id from by
            simp [effIds1, ht1]] at h1
          exact covers_new_block h1
        · rw [hrun, ids2_cons_some hid2, heff2]
          have h2 := hih.2
          rw [show effIds2 (RangePairIter.findNext st) = effIds2 st from by
            simp [effIds2, ht2], heff2] at h2
          exact covers_cons_self h2
      | S1DragsBehindBreak =>
        simp only [Inv, hS] at h
        obtain ⟨hus, hne1, hne2, hbtr, hwf2, hlo, hhi, hbl, hblh, hmatch⟩ := h
        obtain ⟨r, rest, hcons⟩ := List.exists_cons_of_ne_nil hne1
        have hev : RangePairIter.evOf st =
            ⟨.BreakS1, st.s1Tel.lowKey, st.s1Tel.highKey,
              st.s1Tel.trans.head?.map Rng.id, none⟩ := by
          simp only [RangePairIter.evOf, hus]
        have hid1 : (RangePairIter.evOf st).id1 = some r.id := by
          rw [hev]
          show st.s1Tel.trans.head?.map Rng.id = some r.id
          rw [hcons]
          rfl
        have hid2 : (RangePairIter.evOf st).id2 = none := by
          rw [hev]
        have ht1 : (RangePairIter.findNext st).s1Tel.trans = st.s1Tel.trans := by
          simp [findNext_s1DragsBehindBreak hS]
        have ht2 : (RangePairIter.findNext st).s2Tel.trans = st.s2Tel.trans := by
          simp [findNext_s1DragsBehindBreak hS]
        have heff : effIds1 st = r.id :: rest.map Rng.id := by
          simp [effIds1, hcons]
        constructor
        · rw [hrun, ids1_cons_some hid1, heff]
          have h1 := hih.1
          rw [show effIds1 (RangePairIter.findNext st) = effIds1 st from by
            simp [effIds1, ht1], heff] at h1
          exact covers_cons_self h1
        · rw [hrun, ids2_cons_none hid2]
          have h2 := hih.2
          rw [show effIds2 (RangePairIter.findNext st) = effIds2 st from by
            simp [effIds2, ht2]] at h2
          exact h2
      | S1DragsBehind =>
        simp only [Inv, hS] at h
        obtain ⟨hus, hne1, hne2, hbtr, hwf2, hlo, hhi, hbl, hblh, hmatch⟩ := h
        obtain ⟨r1, rest1, hcons1⟩ := List.exists_cons_of_ne_nil hne1
        obtain ⟨r2, rest2, hcons2⟩ := List.exists_cons_of_ne_nil hne2
        have hnx2 : st.s2Tel.next = rest2 := by
          simp only [telWF, hcons2] at hwf2
          exact hwf2.1
        have hev : RangePairIter.evOf st =
            ⟨.RangeOverlap, st.s1Tel.lowKey, st.s1Tel.highKey,
              st.s1Tel.trans.head?.map Rng.id, st.s2Tel.trans.head?.map Rng.id⟩ := by
          simp only [RangePairIter.evOf, hus]
        have hid1 : (RangePairIter.evOf st).id1 = some r1.id := by
          rw [hev]
          show st.s1Tel.trans.head?.map Rng.id = some r1.id
          rw [hcons1]
          rfl
        have hid2 : (RangePairIter.evOf st).id2 = some r2.id := by
          rw [hev]
          show st.s2Tel.trans.head?.map Rng.id = some r2.id
          rw [hcons2]
          rfl
        have ht1 : (RangePairIter.findNext st).s1Tel.trans = st.s1Tel.trans := by
          simp [findNext_s1DragsBehind hS, scan_trans1, hbtr]
        have ht2 : (RangePairIter.findNext st).s2Tel.trans = rest2 := by
          simp [findNext_s1DragsBehind hS, scan_trans2, increment_trans, hnx2]
        have heff1 : effIds1 st = r1.id :: rest1.map Rng.id := by
          simp [effIds1, hcons1]
        constructor
        · rw [hrun, ids1_cons_some hid1, heff1]
          have h1 := hih.1
          rw [show effIds1 (RangePairIter.findNext st) = effIds1 st from by
            simp [effIds1, ht1], heff1] at h1
          exact covers_cons_self h1
        · rw [hrun, ids2_cons_some hid2,
            show effIds2 st = r2.id :: rest2.map Rng.id from by simp [effIds2, hcons2]]
          have h2 := hih.2
          rw [show effIds2 (RangePairIter.findNext st) = rest2.map Rng.id from by
            simp [effIds2, ht2]] at h2
          exact covers_new_block h2
      | ExactOverlap =>
        simp only [Inv, hS] at h
        obtain ⟨hus, hne1, hne2, hwf1, hwf2, hlo, hhi⟩ := h
        obtain ⟨r1, rest1, hcons1⟩ := List.exists_cons_of_ne_nil hne1
        obtain ⟨r2, rest2, hcons2⟩ := List.exists_cons_of_ne_nil hne2
        have hnx1 : st.s1Tel.next = rest1 := by
          simp only [telWF, hcons1] at hwf1
          exact hwf1.1
        have hnx2 : st.s2Tel.next = rest2 := by
          simp only [telWF, hcons2] at hwf2
          exact hwf2.1
        have hev : RangePairIter.evOf st =
            ⟨.RangeOverlap, st.s1Tel.lowKey, st.s1Tel.highKey,
              st.s1Tel.trans.head?.map Rng.id, st.s2Tel.trans.head?.map Rng.id⟩ := by
          simp only [RangePairIter.evOf, hus]
        have hid1 : (RangePairIter.evOf st).id1 = some r1.id := by
          rw [hev]
          show st.s1Tel.trans.head?.map Rng.id = some r1.id
          rw [hcons1]
          rfl
        have hid2 : (RangePairIter.evOf st).id2 = some r2.id := by
          rw [hev]
          show st.s2Tel.trans.head?.map Rng.id = some r2.id
          rw [hcons2]
          rfl
        have ht1 : (RangePairIter.findNext st).s1Tel.trans = rest1 := by
          simp [findNext_exactOverlap hS, scan_trans1, increment_trans, hnx1]
        have ht2 : (RangePairIter.findNext st).s2Tel.trans = rest2 := by
          simp [findNext_exactOverlap hS, scan_trans2, increment_trans, hnx2]
        constructor
        · rw [hrun, ids1_cons_some hid1,
            show effIds1 st = r1.id :: rest1.map Rng.id from by simp [effIds1, hcons1]]
          have h1 := hih.1
          rw [show effIds1 (RangePairIter.findNext st) = rest1.map Rng.id from by
            simp [effIds1, ht1]] at h1
          exact covers_new_block h1
        · rw [hrun, ids2_cons_some hid2,
            show effIds2 st = r2.id :: rest2.map Rng.id from by simp [effIds2, hcons2]]
          have h2 := hih.2
          rw [show effIds2 (RangePairIter.findNext st) = rest2.map Rng.id from by
            simp [effIds2, ht2]] at h2
          exact covers_new_block h2

theorem init_trans1 (l1 l2 : List Rng) : (RangePairIter.init l1 l2).s1Tel.trans = l1 := by
  show (RangePairIter.scan
    { list1 := l1, list2 := l2
      itState := .Begin, userState := .RangeInS1
      s1Tel := Tel.set { lowKey := 0, highKey := 0, trans := [], next := [] } l1
      s2Tel := Tel.set { lowKey := 0, highKey := 0, trans := [], next := [] } l2
      bottomLow := 0, bottomHigh := 0
      bottomTrans1 := [], bottomTrans2 := [] }).s1Tel.trans = l1
  rw [scan_trans1]
  show (Tel.set { lowKey := 0, highKey := 0, trans := [], next := [] } l1).trans = l1
  cases l1 <;> simp [Tel.set, Tel.load]

theorem init_trans2 (l1 l2 : List Rng) : (RangePairIter.init l1 l2).s2Tel.trans = l2 := by
  show (RangePairIter.scan
    { list1 := l1, list2 := l2
      itState := .Begin, userState := .RangeInS1
      s1Tel := Tel.set { lowKey := 0, highKey := 0, trans := [], next := [] } l1
      s2Tel := Tel.set { lowKey := 0, highKey := 0, trans := [], next := [] } l2
      bottomLow := 0, bottomHigh := 0
      bottomTrans1 := [], bottomTrans2 := [] }).s2Tel.trans = l2
  rw [scan_trans2]
  show (Tel.set { lowKey := 0, highKey := 0, trans := [], next := [] } l2).trans = l2
  cases l2 <;> simp [Tel.set, Tel.load]

theorem mu_init_le (l1 l2 : List Rng) :
    mu (RangePairIter.init l1 l2) ≤ 6 * (l1.length + l2.length) + 5 := by
  have hr : rank (RangePairIter.init l1 l2).itState ≤ 5 := by
    show rank (RangePairIter.scan
      { list1 := l1, list2 := l2
        itState := .Begin, userState := .RangeInS1
        s1Tel := Tel.set { lowKey := 0, highKey := 0, trans := [], next := [] } l1
        s2Tel := Tel.set { lowKey := 0, highKey := 0, trans := [], next := [] } l2
        bottomLow := 0, bottomHigh := 0
        bottomTrans1 := [], bottomTrans2 := [] }).itState ≤ 5
    exact scan_rank_le _
  rw [mu_eq, init_trans1, init_trans2]
  omega

/-- C9: for every pair of finite sorted, pairwise-disjoint range lists, the
iterator is single-pass and terminating: from the begin state, a bounded
number of `findNext` resumptions reaches the end state; once there, further
resumptions change nothing, so `end()` stays true; and with enough fuel the
event stream mentions each side's input ranges as one contiguous non-empty
block each, in input order — no element is revisited after its segment
events have been emitted. -/
theorem rangePairIter_single_pass (l1 l2 : List Rng) (b : Int)
    (h1 : rngChain b l1 = true) (h2 : rngChain b l2 = true) :
    (∀ n, 6 * (l1.length + l2.length) + 6 ≤ n →
        (RangePairIter.nextN n (RangePairIter.init l1 l2)).itState
          = RangePairIter.IterState.End)
      ∧ (∀ st : RangePairIter, st.itState = RangePairIter.IterState.End →
          RangePairIter.findNext st = st)
      ∧ (∀ fuel, 6 * (l1.length + l2.length) + 6 ≤ fuel →
          Covers (l1.map Rng.id) (ids1 (RangePairIter.run l1 l2 fuel))
            ∧ Covers (l2.map Rng.id) (ids2 (RangePairIter.run l1 l2 fuel))) := by
  have hinv := inv_init h1 h2
  have hmub := mu_init_le l1 l2
  refine ⟨?_, ?_, ?_⟩
  · intro n hn
    exact inv_reaches_end hinv n (by omega)
  · intro st hSt
    exact findNext_end hSt
  · intro fuel hf
    have hc := inv_covers hinv fuel (by omega)
    constructor
    · have h1c := hc.1
      rw [show effIds1 (RangePairIter.init l1 l2) = l1.map Rng.id from by
        simp [effIds1, init_trans1]] at h1c
      exact h1c
    · have h2c := hc.2
      rw [show effIds2 (RangePairIter.init l1 l2) = l2.map Rng.id from by
        simp [effIds2, init_trans2]] at h2c
      exact h2c

/-- Witness for C9 at two concrete overlapping range lists. -/
theorem rangePairIter_single_pass_witness :
    (RangePairIter.nextN 20 (RangePairIter.init [⟨0, 5, 0⟩] [⟨3, 9, 1⟩])).itState
        = RangePairIter.IterState.End
      ∧ RangePairIter.findNext
            (RangePairIter.nextN 20 (RangePairIter.init [⟨0, 5, 0⟩] [⟨3, 9, 1⟩]))
          = RangePairIter.nextN 20 (RangePairIter.init [⟨0, 5, 0⟩] [⟨3, 9, 1⟩])
      ∧ Covers (([⟨0, 5, 0⟩] : List Rng).map Rng.id)
          (ids1 (RangePairIter.run [⟨0, 5, 0⟩] [⟨3, 9, 1⟩] 20))
      ∧ Covers (([⟨3, 9, 1⟩] : List Rng).map Rng.id)
          (ids2 (RangePairIter.run [⟨0, 5, 0⟩] [⟨3, 9, 1⟩] 20)) := by
  have H := rangePairIter_single_pass [⟨0, 5, 0⟩] [⟨3, 9, 1⟩] 0 (by decide) (by decide)
  exact ⟨H.1 20 (by decide), H.2.1 _ (H.1 20 (by decide)),
    (H.2.2 20 (by decide)).1, (H.2.2 20 (by decide)).2⟩

end Colm
